import Mathlib

/-!
kanban-for-me: the task store and the task interaction engine.

A shallow embedding of `src/script.js`.

* The Dexie table `tasks` (primary key `id`) is a list of records; every
  asynchronous store call is run to completion before the next one starts.
* Numbers that hold positions and pointer coordinates are exact rationals,
  `zindex` is an integer.
* A `Task` instance owns its DOM element; an instance is referred to by its
  index in `Task.instances` (the array only ever grows, so the index is the
  identity of the JavaScript object).
-/

namespace Kanban

/-! ## The store (`db`) -/

/-- One row of the Dexie table `tasks: '&id, color, text, top, left, zindex'`. -/
structure Record where
  id : String
  color : String
  text : String
  top : ℚ
  left : ℚ
  zindex : Int
  deriving DecidableEq

/-- The table, keyed by `id`. -/
abbrev Table := List Record

/-- The argument of `db.add` and `Task.create`: every field may be absent. -/
structure TaskOption where
  id : Option String := none
  top : Option ℚ := none
  left : Option ℚ := none
  text : Option String := none
  color : Option String := none
  deriving DecidableEq

/-- The argument of `db.edit`: `color`, `text`, `top`, `left`, each optional. -/
structure EditOption where
  color : Option String := none
  text : Option String := none
  top : Option ℚ := none
  left : Option ℚ := none
  deriving DecidableEq

/-- What `db.add` returns: `{ ...option, zindex, id }`. -/
structure Added where
  option : TaskOption
  zindex : Int
  id : String
  deriving DecidableEq

namespace db

/-- Source `getAll()`: `this.table.toArray()`. -/
def getAll (table : Table) : List Record := table

/-- Dexie `table.update(key, changes)`: the row with that key is changed, a
missing key changes nothing. -/
def tableUpdate (table : Table) (key : String) (changes : Record → Record) : Table :=
  table.map (fun r => if r.id = key then changes r else r)

/-- Dexie `table.add(row)`: rejected when the primary key is already present. -/
def tableAdd (table : Table) (row : Record) : Table :=
  if row.id ∈ table.map (fun r => r.id) then table else table ++ [row]

/-- Dexie `table.delete(key)`. -/
def tableDelete (table : Table) (key : String) : Table :=
  table.filter (fun r => r.id ≠ key)

/-- Source `Math.max(...zs)` on a non-empty argument list, started at `z`. -/
def mathMax (z : Int) (zs : List Int) : Int := zs.foldl max z

/-- The `zindex` read by `db.add`:
`records.length ? Math.max(...records.map(r => r.zindex)) : 0`. -/
def maxZindex (records : List Record) : Int :=
  match records.map (fun r => r.zindex) with
  | [] => 0
  | z :: zs => mathMax z zs

/-- Source `db.add(option)` with the id that `#createId()` produced: the stored row
has `zindex + 1`, the returned object carries `zindex`. -/
def add (table : Table) (newId : String) (option : TaskOption) : Added × Table :=
  let id := newId
  let zindex := maxZindex (getAll table)
  let top := option.top.getD 0
  let left := option.left.getD 0
  let text := option.text.getD ""
  let color := option.color.getD "white"
  let table1 := tableAdd table
    { id := id, color := color, text := text, top := top, left := left, zindex := zindex + 1 }
  ({ option := option, zindex := zindex, id := id }, table1)

/-- The changes `{ ...option }` of `db.edit` applied to a row. -/
def applyEdit (option : EditOption) (r : Record) : Record :=
  { r with
    color := option.color.getD r.color
    text := option.text.getD r.text
    top := option.top.getD r.top
    left := option.left.getD r.left }

/-- Source `db.edit(id, option)`. -/
def edit (table : Table) (id : String) (option : EditOption) : Table :=
  tableUpdate table id (applyEdit option)

/-- The comparator of `toFront`, `(r1, r2) => r1.zindex - r2.zindex`: `r1` is
not placed after `r2` when the difference is not positive. -/
def zle (r1 r2 : Record) : Prop := r1.zindex - r2.zindex ≤ 0

instance : DecidableRel zle := fun r1 r2 => inferInstanceAs (Decidable (r1.zindex - r2.zindex ≤ 0))

instance : IsTotal Record zle := ⟨fun a b => by unfold zle; omega⟩

instance : IsTrans Record zle := ⟨fun a b c => by unfold zle; omega⟩

/-- Source `Array.prototype.sort` with the comparator of `toFront` (a stable sort). -/
def sortByZindex (records : List Record) : List Record :=
  records.insertionSort zle

/-- The change `{ zindex: z }` passed to `table.update`. -/
def withZindex (z : Int) (r : Record) : Record := { r with zindex := z }

/-- The `while (i < all.length)` loop of `toFront`, entered with the rows of
`all` from index `i` on still to do: `update(all[i].id, { zindex: i++ })`. -/
def toFrontLoop : List Record → Nat → Table → Nat × Table
  | [], i, table => (i, table)
  | r :: rest, i, table =>
      toFrontLoop rest (i + 1) (tableUpdate table r.id (withZindex (i : Int)))

/-- Source `db.toFront(id)`. -/
def toFront (table : Table) (id : String) : Table :=
  let all := sortByZindex ((getAll table).filter (fun r => r.id ≠ id))
  let (i, table1) := toFrontLoop all 0 table
  tableUpdate table1 id (withZindex (i : Int))

/-- Source `db.deleteTask(id)`. -/
def deleteTask (table : Table) (id : String) : Table := tableDelete table id

end db

/-- The `zindex` stored for `id`, if there is a row with that key. -/
def zindexOf (table : Table) (id : String) : Option Int :=
  (table.find? (fun r => r.id = id)).map (fun r => r.zindex)

/-- The rows have pairwise distinct ids. -/
def DistinctIds (table : Table) : Prop := (table.map (fun r => r.id)).Nodup

/-- The rows have pairwise distinct `zindex` values. -/
def DistinctZ (table : Table) : Prop := (table.map (fun r => r.zindex)).Nodup

instance (table : Table) : Decidable (DistinctIds table) :=
  inferInstanceAs (Decidable (List.Nodup _))

instance (table : Table) : Decidable (DistinctZ table) :=
  inferInstanceAs (Decidable (List.Nodup _))

/-- A row with default content, for examples. -/
def mkRecord (id : String) (zindex : Int) : Record :=
  { id := id, color := "white", text := "", top := 0, left := 0, zindex := zindex }

/-- The two-row store of the bring-to-front scenario: zindex 3 and 7. -/
def store37 : Table := [mkRecord "a" 3, mkRecord "b" 7]

/-- The ids in the order in which `toFront` numbers them: the other rows by
ascending `zindex`, then `id`. -/
def frontOrder (table : Table) (id : String) : List String :=
  (db.sortByZindex (table.filter (fun r => r.id ≠ id))).map (fun r => r.id) ++ [id]

/-- The ids of the rows by ascending `zindex`. -/
def zOrder (table : Table) : List String :=
  (db.sortByZindex table).map (fun r => r.id)

/-- Every row gets as `zindex` the place of its id in `order`. -/
def rankBy (order : List String) (table : Table) : Table :=
  table.map (fun r => db.withZindex ((order.indexOf r.id : Nat) : Int) r)

/-! ## Tasks and the board -/

/-- An object `{ left, top }`, in percent of the canvas. -/
structure Position where
  left : ℚ
  top : ℚ
  deriving DecidableEq

/-- The `div.task` element of a task together with its `.display-text` and
`textarea` children. `styleLeft` and `styleTop` are the numbers in
`style.left` and `style.top` (what `getPosition` parses back), `displayText`
is the markdown source last handed to `marked.parse`, `originalValue` is
`input.dataset.originalValue`, `onmousedown` tells whether `elm.onmousedown`
is the `mousedown` handler (it is `null` while editing) and `inTasks` whether
the element is a child of `$tasks`. -/
structure Elm where
  id : String
  classFocused : Bool
  classEditing : Bool
  classMoving : Bool
  classColor : String
  styleLeft : ℚ
  styleTop : ℚ
  displayText : String
  inputValue : String
  selectionEnd : Nat
  originalValue : Option String
  onmousedown : Bool
  inTasks : Bool
  deriving DecidableEq

/-- The field `origin` of a `Task`: `{ x, y, pos }`. `pos` starts as `{}` and
is written by `mousedown` before `move` reads it. -/
structure Origin where
  x : ℚ
  y : ℚ
  pos : Position
  deriving DecidableEq

/-- A `Task` instance with the variables its event handlers close over:
`focused` (the tasks being dragged, as indexes into `Task.instances`) and
`scrolling` (`true` while the promise of `Scroll.doScroll` is pending, `false`
for `null`). -/
structure Task where
  id : String
  elm : Elm
  origin : Origin
  focused : List Nat
  scrolling : Bool
  deriving DecidableEq

/-- The page: `Task.instances`, the store, the children of `$tasks` that no
`Task` instance was built for, the owner of `document.onmousemove` and of
`document.onmouseup`, whether `document.onkeyup` is the board dispatcher,
the saved `Task.#onDocumentKeyUp`, and how often `Scroll.doScroll` ran. -/
structure Board where
  instances : List Task
  table : Table
  strays : List Elm
  onmousemove : Option Nat
  onmouseup : Option Nat
  documentOnkeyup : Bool
  onDocumentKeyUp : Bool
  doScrollCalls : Nat
  deriving DecidableEq

/-- What the handlers read from `window` when an event arrives. -/
structure Window where
  innerWidth : ℚ
  innerHeight : ℚ
  pageYOffset : ℚ
  deriving DecidableEq

/-- The fields of a mouse event that the handlers read. -/
structure MouseEvent where
  ctrlKey : Bool
  pageX : ℚ
  pageY : ℚ
  clientY : ℚ
  deriving DecidableEq

/-- The fields of a keyboard event that the handlers read. -/
structure KeyEvent where
  code : String
  ctrlKey : Bool
  shiftKey : Bool
  altKey : Bool
  deriving DecidableEq

/-- A DOM call that throws. -/
inductive DomError where
  | emptyToken
  | nullElement
  | notAChild
  deriving DecidableEq

/-- The list `l` with `f` applied to the entry at index `i`, if there is one. -/
def modifyAt {α : Type} (l : List α) (i : Nat) (f : α → α) : List α :=
  match l[i]? with
  | some a => l.set i (f a)
  | none => l

/-- The instance `i` changed by `f`. -/
def Board.modify (b : Board) (i : Nat) (f : Task → Task) : Board :=
  { b with instances := modifyAt b.instances i f }

/-- The field `origin` of instance `i`. -/
def Board.origin (b : Board) (i : Nat) : Origin :=
  match b.instances[i]? with
  | some t => t.origin
  | none => { x := 0, y := 0, pos := { left := 0, top := 0 } }

namespace Task

/-- Source `isFocused()`: `this.elm.classList.contains(CLASS_FOCUSED)`. -/
def isFocused (b : Board) (this : Nat) : Bool :=
  match b.instances[this]? with
  | some t => t.elm.classFocused
  | none => false

/-- Source `Task.getAllFocused()`: `Task.instances.filter(t => ...contains(CLASS_FOCUSED))`. -/
def getAllFocused (b : Board) : List Nat :=
  (List.range b.instances.length).filter (fun i => isFocused b i)

/-- Source `Task.get(id)`: `Task.instances.find(t => t.id === id)`. -/
def get (b : Board) (id : String) : Option Nat :=
  (List.range b.instances.length).find? (fun i =>
    match b.instances[i]? with
    | some t => t.id = id
    | none => false)

/-- Source `focus()`. -/
def focus (b : Board) (this : Nat) : Board :=
  b.modify this (fun t => { t with elm := { t.elm with classFocused := true } })

/-- Source `unfocus()`. -/
def unfocus (b : Board) (this : Nat) : Board :=
  b.modify this (fun t => { t with elm := { t.elm with classFocused := false } })

/-- Source `Task.unfocusAll()`. -/
def unfocusAll (b : Board) : Board :=
  (getAllFocused b).foldl unfocus b

/-- Source `getPosition()`. -/
def getPosition (b : Board) (this : Nat) : Position :=
  match b.instances[this]? with
  | some t => { left := t.elm.styleLeft, top := t.elm.styleTop }
  | none => { left := 0, top := 0 }

/-- The closure variable `focused` of the handlers of the instance `this`. -/
def closureFocused (b : Board) (this : Nat) : List Nat :=
  match b.instances[this]? with
  | some t => t.focused
  | none => []

/-- The latch `scrolling` of the handlers of the instance `this` is not `null`. -/
def scrollingPending (b : Board) (this : Nat) : Bool :=
  match b.instances[this]? with
  | some t => t.scrolling
  | none => false

/-- Source `setPosition(pos)`: the style of the element and `db.edit(this.id, ...)`. -/
def setPosition (b : Board) (this : Nat) (pos : Position) : Board :=
  match b.instances[this]? with
  | some t =>
      { b with
        instances := b.instances.set this
          { t with elm := { t.elm with styleTop := pos.top, styleLeft := pos.left } }
        table := db.edit b.table t.id { top := some pos.top, left := some pos.left } }
  | none => b

/-- Source `setText(text)`. -/
def setText (b : Board) (this : Nat) (text : String) : Board :=
  match b.instances[this]? with
  | some t =>
      { b with
        instances := b.instances.set this
          { t with elm := { t.elm with classEditing := false, displayText := text,
                                       inputValue := text } }
        table := db.edit b.table t.id { text := some text } }
  | none => b

/-- Source `remove()`: `removeChild` throws when the element is not a child of
`$tasks`. Emptying the element (`textContent = null`) detaches its children,
which the instance keeps referring to. -/
def remove (b : Board) (this : Nat) : Board × Except DomError Unit :=
  match b.instances[this]? with
  | some t =>
      if t.elm.inTasks then
        ({ b with
           instances := b.instances.set this { t with elm := { t.elm with inTasks := false } }
           table := db.deleteTask b.table t.id }, .ok ())
      else (b, .error .notAChild)
  | none => (b, .ok ())

/-- Source `toFront()`: the element becomes the last child of `$tasks` (the order of
the children is not recorded) and `db.toFront(this.id)`. -/
def toFront (b : Board) (this : Nat) : Board :=
  match b.instances[this]? with
  | some t =>
      { b with
        instances := b.instances.set this { t with elm := { t.elm with inTasks := true } }
        table := db.toFront b.table t.id }
  | none => b

/-- Source `edit()`. -/
def edit (b : Board) (this : Nat) : Board :=
  match b.instances[this]? with
  | some t =>
      if !t.elm.classEditing then
        { b with
          onDocumentKeyUp := b.documentOnkeyup
          documentOnkeyup := false
          instances := b.instances.set this
            { t with elm := { t.elm with originalValue := some t.elm.inputValue,
                                         onmousedown := false, classEditing := true } } }
      else b
  | none => b

/-- Source `getMousePosition(event)`. -/
def getMousePosition (w : Window) (event : MouseEvent) : ℚ × ℚ :=
  ((event.pageX / w.innerWidth) * 100, (event.pageY / w.innerHeight) * 100)

/-- The first statement of `mousedown`: `classList.toggle(CLASS_FOCUSED)` with
Ctrl, else `unfocusAll` and `focus` when the task is not focused. -/
def mousedownFocus (b : Board) (this : Nat) (event : MouseEvent) : Board :=
  if event.ctrlKey then
    b.modify this (fun t => { t with elm := { t.elm with classFocused := !t.elm.classFocused } })
  else if !isFocused b this then focus (unfocusAll b) this
  else b

/-- The body of the handler `mousedown` of the instance `this`. The handler
runs only while it is the value of `elm.onmousedown`: a mousedown event goes
through `Task.elmOnmousedown`. -/
def mousedown (b : Board) (this : Nat) (w : Window) (event : MouseEvent) : Board :=
  let b1 := mousedownFocus b this event
  let focusedTasks := getAllFocused b1
  let b2 := focusedTasks.foldl
    (fun b f => b.modify f (fun t => { t with elm := { t.elm with classMoving := true } })) b1
  let b3 := { b2.modify this (fun t => { t with focused := focusedTasks }) with
              onmousemove := some this, onmouseup := some this }
  let mousePos := getMousePosition w event
  let b4 := b3.modify this
    (fun t => { t with origin := { t.origin with x := mousePos.1, y := mousePos.2 } })
  focusedTasks.foldl
    (fun b f => b.modify f (fun t => { t with origin := { t.origin with pos := getPosition b f } }))
    b4

end Task

namespace Scroll

/-- Source `Scroll.doScroll(to)`: the page is scrolled and a pending promise returned;
the board counts the calls. -/
def doScroll (b : Board) : Board := { b with doScrollCalls := b.doScrollCalls + 1 }

end Scroll

namespace Task

/-- The condition under which `move` calls `Scroll.doScroll`, with the
grouping JavaScript gives it: `(a && b) || ((c && d) && e)`. -/
def scrollCondition (w : Window) (event : MouseEvent) (scrolling : Bool) : Bool :=
  (decide (event.clientY ≥ w.innerHeight) && decide (w.pageYOffset = 0)) ||
    ((decide (event.clientY ≤ 0) && decide (w.pageYOffset > 0)) && (scrolling == false))

/-- The body of the handler `move` of the instance `this`; a mousemove event
goes through `documentOnmousemove`. -/
def move (b : Board) (this : Nat) (w : Window) (event : MouseEvent) : Board :=
  match b.instances[this]? with
  | some t =>
      let b1 :=
        if scrollCondition w event t.scrolling then
          (Scroll.doScroll b).modify this (fun t => { t with scrolling := true })
        else b
      let mousePos := getMousePosition w event
      t.focused.foldl
        (fun b f => setPosition b f
          { left := (b.origin f).pos.left + (mousePos.1 - (b.origin this).x)
            top := (b.origin f).pos.top + (mousePos.2 - (b.origin this).y) })
        b1
  | none => b

/-- The promise of `Scroll.doScroll` resolves: `scrolling = null`. -/
def scrollResolved (b : Board) (this : Nat) : Board :=
  b.modify this (fun t => { t with scrolling := false })

/-- The helper `comeback(pos, max)`. -/
def comeback (pos max : ℚ) : ℚ :=
  if pos < 0 then 0
  else if pos > max then max - 10
  else pos

/-- The handler `drop` registered for the instance `this` (collapsing the text
selection is not recorded). -/
def drop (b : Board) (this : Nat) : Board :=
  match b.instances[this]? with
  | some t =>
      let b1 := t.focused.foldl
        (fun b f =>
          let pos := getPosition b f
          let newLeft := comeback pos.left 100
          let newTop := comeback pos.top 200
          setPosition
            (b.modify f (fun t => { t with elm := { t.elm with classMoving := false } }))
            f { left := newLeft, top := newTop })
        b
      { b1.modify this (fun t => { t with focused := [] }) with
        onmousemove := none, onmouseup := none }
  | none => b

/-- The helper `applyText` of the instance `this`. -/
def applyText (b : Board) (this : Nat) : Board :=
  match b.instances[this]? with
  | some t =>
      let b1 := setText b this t.elm.inputValue
      { b1.modify this (fun t => { t with elm := { t.elm with onmousedown := true } }) with
        documentOnkeyup := b1.onDocumentKeyUp }
  | none => b

/-- The handler `input.onkeydown` of the instance `this`. Places in the text
are counted in characters. -/
def onkeydown (b : Board) (this : Nat) (event : KeyEvent) : Board :=
  if event.code = "Tab" then applyText b this
  else if event.ctrlKey && event.code = "Enter" then
    if event.shiftKey then
      b.modify this (fun t =>
        let value := t.elm.inputValue ++ "\n\n" ++ "<comment>\n\n</comment>"
        { t with elm := { t.elm with
            inputValue := value
            selectionEnd := value.length - "</comment>".length - 1 } })
    else
      b.modify this (fun t =>
        let br := if event.altKey then "<br>\n" else "  \n"
        let cursor := t.elm.selectionEnd
        { t with elm := { t.elm with
            inputValue := t.elm.inputValue.take cursor ++ br ++ t.elm.inputValue.drop cursor
            selectionEnd := cursor + br.length } })
  else b

/-- The handler `input.onkeyup` of the instance `this`. -/
def onkeyup (b : Board) (this : Nat) (event : KeyEvent) : Board :=
  if event.code = "Escape" then
    match b.instances[this]? with
    | some t =>
        { b with
          instances := b.instances.set this
            { t with elm := { t.elm with
                classEditing := false
                inputValue := t.elm.originalValue.getD "undefined"
                onmousedown := true } }
          documentOnkeyup := b.onDocumentKeyUp }
    | none => b
  else b

/-- The handler `input.onblur` of the instance `this`. -/
def onblur (b : Board) (this : Nat) : Board := applyText b this

/-- The user types into the `textarea` of the instance `this`: the field holds
`value` and the cursor is at `cursor` afterwards. -/
def typed (b : Board) (this : Nat) (value : String) (cursor : Nat) : Board :=
  b.modify this (fun t => { t with elm := { t.elm with inputValue := value, selectionEnd := cursor } })

/-- Source `Task.create(option)`, with the id that `#createId()` would produce.
The `let { id, top, left, text, color } = added` inside the `if` block declares
new block-scoped variables, so the outer ones keep the values taken from
`option`. `classList.add` throws on the empty token; `getElementById('')` is
`null`, so the constructor throws at `this.elm.querySelector`. The result is
the board, the id given to the new element (if that line was reached) and the
index of the new instance or the error thrown. -/
def create (b : Board) (newId : String) (option : TaskOption) :
    Board × Option String × Except DomError Nat :=
  let id := option.id.getD ""
  let top := option.top.getD 0
  let left := option.left.getD 0
  let text := option.text.getD ""
  let color := option.color.getD ""
  let b1 := if id = "" then { b with table := (db.add b.table newId option).2 } else b
  if color = "" then (b1, none, .error .emptyToken)
  else
    let newTask : Elm :=
      { id := id, classFocused := false, classEditing := false, classMoving := false,
        classColor := color, styleLeft := left, styleTop := top, displayText := text,
        inputValue := text, selectionEnd := text.length, originalValue := none,
        onmousedown := false, inTasks := true }
    if id = "" then ({ b1 with strays := b1.strays ++ [newTask] }, some id, .error .nullElement)
    else
      let newInstance : Task :=
        { id := id, elm := { newTask with onmousedown := true },
          origin := { x := 0, y := 0, pos := { left := 0, top := 0 } },
          focused := [], scrolling := false }
      ({ b1 with instances := b1.instances ++ [newInstance] }, some id, .ok b1.instances.length)

end Task

namespace Menu

/-- The comparator of `onToFrontMenuClick`, `(t1, t2) => t1.pos.top - t2.pos.top`. -/
def tople (t1 t2 : Nat × Position) : Prop := t1.2.top - t2.2.top ≤ 0

instance : DecidableRel tople := fun t1 t2 => inferInstanceAs (Decidable (t1.2.top - t2.2.top ≤ 0))

instance : IsTotal (Nat × Position) Menu.tople :=
  ⟨fun a b => by unfold Menu.tople; rcases le_total a.2.top b.2.top with h | h
                 · exact Or.inl (by linarith)
                 · exact Or.inr (by linarith)⟩

instance : IsTrans (Nat × Position) Menu.tople :=
  ⟨fun a b c h1 h2 => by unfold Menu.tople at *; linarith⟩

/-- The focused tasks with their positions, sorted by `top` (a stable sort). -/
def sortedFocused (b : Board) : List (Nat × Position) :=
  ((Task.getAllFocused b).map (fun task => (task, Task.getPosition b task))).insertionSort tople

/-- Source `onToFrontMenuClick`. -/
def onToFrontMenuClick (b : Board) : Board :=
  let focusedTasks := Task.getAllFocused b
  if focusedTasks.length = 1 then
    match (focusedTasks.head?).bind (fun f => b.instances[f]?) with
    | some t =>
        match Task.get b t.id with
        | some g => Task.toFront b g
        | none => b
    | none => b
  else
    (sortedFocused b).foldl (fun b t => Task.toFront b t.1) b

/-- Source `onDeleteMenuClick`: `forEach` stops at the first `remove` that throws. -/
def onDeleteMenuClick (b : Board) : Board × Except DomError Unit :=
  (Task.getAllFocused b).foldl
    (fun acc t =>
      match acc.2 with
      | .ok _ => Task.remove acc.1 t
      | .error e => (acc.1, .error e))
    (b, .ok ())

end Menu

/-! ## Event dispatch

The handlers above run only through the properties they are assigned to:
`this.elm.onmousedown` (set to `null` by `edit()`, restored by Escape and by
`applyText`), `document.onmousemove` and `document.onmouseup` (set by
`mousedown`, cleared by `drop`). -/

/-- A mousedown event on the element of the instance `this`: the handler in
`elm.onmousedown` runs; nothing runs while that property is `null`. -/
def Task.elmOnmousedown (b : Board) (this : Nat) (w : Window) (event : MouseEvent) : Board :=
  match b.instances[this]? with
  | some t => if t.elm.onmousedown then Task.mousedown b this w event else b
  | none => b

/-- A mousemove event: the handler in `document.onmousemove` runs, if any. -/
def documentOnmousemove (b : Board) (w : Window) (event : MouseEvent) : Board :=
  match b.onmousemove with
  | some this => Task.move b this w event
  | none => b

/-- A mouseup event: the handler in `document.onmouseup` runs, if any. -/
def documentOnmouseup (b : Board) : Board :=
  match b.onmouseup with
  | some this => Task.drop b this
  | none => b

/-! ## Single steps of the loops, used to state what the handlers do -/

/-- The field `id` of instance `i`. -/
def Board.idOf (b : Board) (i : Nat) : String :=
  match b.instances[i]? with
  | some t => t.id
  | none => ""

/-- The ids of the focused tasks in the order in which `onToFrontMenuClick`
brings them to the front. -/
def Menu.sortedFocusedIds (b : Board) : List String :=
  (Menu.sortedFocused b).map (fun t => b.idOf t.1)

/-- What `drop` does to one dragged instance. -/
def Task.settle (t : Task) : Task :=
  { t with elm := { t.elm with classMoving := false,
                               styleTop := Task.comeback t.elm.styleTop 200,
                               styleLeft := Task.comeback t.elm.styleLeft 100 } }

/-- What `move` does to one dragged instance, for the pointer at `mousePos`
and the gesture origin `o`. -/
def Task.follow (mousePos : ℚ × ℚ) (o : Origin) (t : Task) : Task :=
  { t with elm := { t.elm with styleTop := t.origin.pos.top + (mousePos.2 - o.y),
                               styleLeft := t.origin.pos.left + (mousePos.1 - o.x) } }

/-! ## Example boards -/

/-- A task in display mode at `(left, top)`, attached to `$tasks`. -/
def mkTask (id : String) (focused : Bool) (left top : ℚ) : Task :=
  { id := id
    elm := { id := id, classFocused := focused, classEditing := false, classMoving := false,
             classColor := "white", styleLeft := left, styleTop := top, displayText := "",
             inputValue := "", selectionEnd := 0, originalValue := none, onmousedown := true,
             inTasks := true }
    origin := { x := 0, y := 0, pos := { left := 0, top := 0 } }
    focused := []
    scrolling := false }

/-- A board with the given tasks and rows and nothing in progress. -/
def mkBoard (instances : List Task) (table : Table) : Board :=
  { instances := instances, table := table, strays := [], onmousemove := none,
    onmouseup := none, documentOnkeyup := true, onDocumentKeyUp := false, doScrollCalls := 0 }

/-- Two focused tasks, `a` at left 5 and `b` at left 50, both at top 10. -/
def boardAB : Board :=
  mkBoard [mkTask "a" true 5 10, mkTask "b" true 50 10] [mkRecord "a" 1, mkRecord "b" 2]

/-- A window of 1000 by 1000 pixels, not scrolled. -/
def window1000 : Window := { innerWidth := 1000, innerHeight := 1000, pageYOffset := 0 }

/-- A mouse event at page position `(x, y)` without modifier. -/
def mouseAt (x y : ℚ) : MouseEvent := { ctrlKey := false, pageX := x, pageY := y, clientY := y }

/-- The board `boardAB` while task `a` is dragged: pressed at page position
(100, 100), pointer now at (0, 2000), so `a` is in flight at left -5, top 200. -/
def boardInFlight : Board :=
  Task.move (Task.mousedown boardAB 0 window1000 (mouseAt 100 100)) 0 window1000 (mouseAt 0 2000)

/-- The board `boardAB` after a whole drag of task `a`: pressed at page
position (100, 100), moved to (0, 100), released. -/
def boardDraggedLeft : Board :=
  Task.drop
    (Task.move (Task.mousedown boardAB 0 window1000 (mouseAt 100 100)) 0 window1000
      (mouseAt 0 100)) 0

/-- A change made to the edit field while the edit session is open: text typed
by the user, or a key pressed (handled by `input.onkeydown`). -/
inductive EditAction where
  | typed (value : String) (cursor : Nat)
  | keydown (event : KeyEvent)
  deriving DecidableEq

/-- One change to the edit field of the instance `this`. -/
def EditAction.run (this : Nat) (b : Board) : EditAction → Board
  | .typed value cursor => Task.typed b this value cursor
  | .keydown event => Task.onkeydown b this event

/-- A sequence of changes to the edit field of the instance `this`. -/
def runEditActions (b : Board) (this : Nat) (actions : List EditAction) : Board :=
  actions.foldl (EditAction.run this) b

/-- The key event with the given code and modifiers Ctrl, Shift, Alt. -/
def key (code : String) (ctrl shift alt : Bool) : KeyEvent :=
  { code := code, ctrlKey := ctrl, shiftKey := shift, altKey := alt }

/-- A board with one task whose text is "hello". -/
def boardHello : Board :=
  mkBoard
    [{ mkTask "h" false 10 20 with
        elm := { (mkTask "h" false 10 20).elm with inputValue := "hello", displayText := "hello" } }]
    [{ mkRecord "h" 1 with text := "hello", top := 20, left := 10 }]

/-- Typing, Ctrl+Enter, Ctrl+Alt+Enter and Ctrl+Shift+Enter. -/
def someEdits : List EditAction :=
  [.typed "hello world" 11, .keydown (key "Enter" true false false),
   .keydown (key "Enter" true false true), .keydown (key "Enter" true true false),
   .keydown (key "KeyA" false false false)]

/-- A mouse event at page position `(x, y)` with Ctrl held. -/
def ctrlMouseAt (x y : ℚ) : MouseEvent := { ctrlKey := true, pageX := x, pageY := y, clientY := y }

/-- The empty board. -/
def boardEmpty : Board := mkBoard [] []

/-- The option of an interactive creation (double click): `{ top, left }`. -/
def optionDoubleClick : TaskOption := { top := some 10, left := some 20 }

/-- The option of an imported record: no id, the other fields present. -/
def optionImported : TaskOption :=
  { top := some 10, left := some 20, text := some "note", color := some "red" }

/-- The board `boardAB` while `a` is dragged and an auto-scroll is pending:
the pointer has reached the bottom edge of the unscrolled window once. -/
def boardScrollPending : Board :=
  Task.move (Task.mousedown boardAB 0 window1000 (mouseAt 100 100)) 0 window1000
    (mouseAt 100 1000)

/-- Three tasks, `a` (top 30) and `c` (top 10) focused, `b` not, with the
rows of zindex 1, 5 and 9. -/
def boardABC : Board :=
  mkBoard [mkTask "a" true 5 30, mkTask "b" false 50 20, mkTask "c" true 70 10]
    [mkRecord "a" 1, mkRecord "b" 5, mkRecord "c" 9]

/-- The board `boardAB` with the focused task `a` in an edit session. -/
def boardEditingA : Board := Task.edit boardAB 0

/-- The operations of the store. -/
inductive StoreOp where
  | add (newId : String) (option : TaskOption)
  | toFront (id : String)
  | edit (id : String) (option : EditOption)
  | deleteTask (id : String)

/-- One store operation, run to completion. -/
def StoreOp.run : StoreOp → Table → Table
  | .add newId option, table => (db.add table newId option).2
  | .toFront id, table => db.toFront table id
  | .edit id option, table => db.edit table id option
  | .deleteTask id, table => db.deleteTask table id

/-- A sequence of store operations, each run to completion before the next. -/
def runOps (ops : List StoreOp) (table : Table) : Table :=
  ops.foldl (fun t op => op.run t) table

/-! ## Facts about the store -/

section StoreLemmas

open db

theorem withZindex_id (z : Int) (r : Record) : (withZindex z r).id = r.id := rfl

theorem withZindex_zindex (z : Int) (r : Record) : (withZindex z r).zindex = z := rfl

theorem toFrontLoop_eq (all : List Record) :
    ∀ (i : Nat) (table : Table), (all.map (fun r => r.id)).Nodup →
      toFrontLoop all i table =
        (i + all.length,
          table.map (fun r =>
            if r.id ∈ all.map (fun x => x.id) then
              withZindex (((i + (all.map (fun x => x.id)).indexOf r.id : Nat)) : Int) r
            else r)) := by
  induction all with
  | nil => intro i table _; simp [toFrontLoop]
  | cons a rest ih =>
    intro i table hnd
    rw [List.map_cons, List.nodup_cons] at hnd
    obtain ⟨ha, hrest⟩ := hnd
    rw [toFrontLoop, ih (i + 1) _ hrest]
    refine Prod.ext (by simp; omega) ?_
    simp only [tableUpdate, List.map_map]
    apply List.map_congr_left
    intro r _
    by_cases hr : r.id = a.id
    · have hnot : a.id ∉ List.map (fun x => x.id) rest := ha
      simp only [Function.comp, hr, if_true, withZindex_id, hnot, if_false, List.map_cons,
        List.mem_cons, true_or, List.indexOf_cons_self, Nat.add_zero]
    · have hne : a.id ≠ r.id := fun h => hr h.symm
      by_cases hm : r.id ∈ List.map (fun x => x.id) rest
      · simp only [Function.comp, hr, if_false, hm, if_true, List.map_cons, List.mem_cons, or_true]
        rw [List.indexOf_cons_ne _ hne]
        congr 2
        omega
      · simp only [Function.comp, hr, if_false, hm, List.map_cons, List.mem_cons, or_self]

theorem sortByZindex_perm (l : List Record) : (sortByZindex l).Perm l :=
  List.perm_insertionSort _ _

theorem sortByZindex_sorted (l : List Record) : (sortByZindex l).Sorted zle :=
  List.sorted_insertionSort _ _

theorem others_ids_nodup (table : Table) (id : String) (h : DistinctIds table) :
    ((sortByZindex (table.filter (fun r => r.id ≠ id))).map (fun r => r.id)).Nodup := by
  have hp := (sortByZindex_perm (table.filter (fun r => r.id ≠ id))).map (fun r => r.id)
  rw [hp.nodup_iff]
  exact List.Nodup.sublist (List.Sublist.map _ (List.filter_sublist _)) h

theorem mem_others_ids (table : Table) (id : String) (x : String) :
    x ∈ (sortByZindex (table.filter (fun r => r.id ≠ id))).map (fun r => r.id) ↔
      x ∈ table.map (fun r => r.id) ∧ x ≠ id := by
  have hp := (sortByZindex_perm (table.filter (fun r => r.id ≠ id))).map (fun r => r.id)
  rw [hp.mem_iff]
  simp only [List.mem_map, List.mem_filter, decide_eq_true_eq]
  constructor
  · rintro ⟨r, ⟨hr, hne⟩, rfl⟩
    exact ⟨⟨r, hr, rfl⟩, hne⟩
  · rintro ⟨⟨r, hr, rfl⟩, hne⟩
    exact ⟨r, ⟨hr, hne⟩, rfl⟩

theorem toFront_eq (table : Table) (id : String) (h : DistinctIds table) :
    toFront table id = rankBy (frontOrder table id) table := by
  unfold toFront getAll
  simp only []
  rw [toFrontLoop_eq _ 0 table (others_ids_nodup table id h)]
  simp only [tableUpdate, rankBy, frontOrder, List.map_map]
  apply List.map_congr_left
  intro r hr
  by_cases hid : r.id = id
  · have hnot : id ∉ (sortByZindex (table.filter (fun r => r.id ≠ id))).map (fun r => r.id) := by
      rw [mem_others_ids]; exact fun h => h.2 rfl
    simp only [Function.comp, hid, hnot, if_false, if_true]
    rw [List.indexOf_append_of_not_mem hnot]
    simp [List.length_insertionSort, sortByZindex]
  · have hin : r.id ∈ (sortByZindex (table.filter (fun r => r.id ≠ id))).map (fun r => r.id) := by
      rw [mem_others_ids]; exact ⟨List.mem_map_of_mem _ hr, hid⟩
    simp only [Function.comp, hin, if_true, withZindex_id, hid, if_false]
    rw [List.indexOf_append_of_mem hin]
    simp

theorem rankBy_ids (order : List String) (table : Table) :
    (rankBy order table).map (fun r => r.id) = table.map (fun r => r.id) := by
  simp [rankBy, Function.comp, withZindex_id]

theorem rankBy_length (order : List String) (table : Table) :
    (rankBy order table).length = table.length := by
  simp [rankBy]

theorem rankBy_rankBy (o1 o2 : List String) (table : Table) :
    rankBy o2 (rankBy o1 table) = rankBy o2 table := by
  simp [rankBy, Function.comp, withZindex_id, withZindex]

theorem zindexOf_rankBy (order : List String) (table : Table) (x : String)
    (hx : x ∈ table.map (fun r => r.id)) :
    zindexOf (rankBy order table) x = some ((order.indexOf x : Nat) : Int) := by
  induction table with
  | nil => simp at hx
  | cons a rest ih =>
    by_cases ha : a.id = x
    · simp [zindexOf, rankBy, List.find?_cons, withZindex_id, ha, withZindex_zindex]
    · have hx1 : x ∈ rest.map (fun r => r.id) := by
        rw [List.map_cons, List.mem_cons] at hx
        rcases hx with h | h
        · exact absurd h.symm ha
        · exact h
      have := ih hx1
      simp only [zindexOf, rankBy] at this
      simp only [zindexOf, rankBy, List.map_cons, List.find?_cons, withZindex_id, ha,
        decide_False]
      exact this

theorem zindexOf_eq_some_of_mem (table : Table) (h : DistinctIds table) (r : Record)
    (hr : r ∈ table) : zindexOf table r.id = some r.zindex := by
  induction table with
  | nil => simp at hr
  | cons a rest ih =>
    rw [DistinctIds, List.map_cons, List.nodup_cons] at h
    by_cases ha : a.id = r.id
    · have : r = a := by
        rcases List.mem_cons.1 hr with h1 | h1
        · exact h1
        · exact absurd (ha ▸ List.mem_map_of_mem (fun r => r.id) h1) h.1
      simp [zindexOf, List.find?_cons, this]
    · have hr1 : r ∈ rest := by
        rcases List.mem_cons.1 hr with h1 | h1
        · exact absurd (h1 ▸ rfl) ha
        · exact h1
      have := ih h.2 hr1
      simp only [zindexOf] at this
      simp [zindexOf, List.find?_cons, ha, this]

theorem rankBy_distinctZ (order : List String) (table : Table) (h : DistinctIds table)
    (hsub : ∀ x ∈ table.map (fun r => r.id), x ∈ order) : DistinctZ (rankBy order table) := by
  have hmap : (rankBy order table).map (fun r => r.zindex) =
      (table.map (fun r => r.id)).map (fun x => ((order.indexOf x : Nat) : Int)) := by
    simp [rankBy, Function.comp, withZindex_zindex]
  rw [DistinctZ, hmap]
  refine List.Nodup.map_on ?_ h
  intro x hx y hy hxy
  have hxy1 : order.indexOf x = order.indexOf y := by exact_mod_cast hxy
  exact (List.indexOf_inj (hsub x hx) (hsub y hy)).1 hxy1

theorem mem_frontOrder (table : Table) (id x : String) :
    x ∈ frontOrder table id ↔ (x ∈ table.map (fun r => r.id) ∧ x ≠ id) ∨ x = id := by
  rw [frontOrder, List.mem_append, mem_others_ids, List.mem_singleton]

theorem toFront_distinctIds (table : Table) (id : String) (h : DistinctIds table) :
    DistinctIds (toFront table id) := by
  rw [toFront_eq table id h, DistinctIds, rankBy_ids]; exact h

theorem toFront_distinctZ (table : Table) (id : String) (h : DistinctIds table) :
    DistinctZ (toFront table id) := by
  rw [toFront_eq table id h]
  refine rankBy_distinctZ _ _ h ?_
  intro x hx
  rw [mem_frontOrder]
  by_cases hxid : x = id
  · exact Or.inr hxid
  · exact Or.inl ⟨hx, hxid⟩

theorem le_mathMax (zs : List Int) :
    ∀ z : Int, z ≤ mathMax z zs ∧ ∀ y ∈ zs, y ≤ mathMax z zs := by
  induction zs with
  | nil => intro z; simp [mathMax]
  | cons a rest ih =>
    intro z
    have h := ih (max z a)
    simp only [mathMax, List.foldl_cons] at h ⊢
    refine ⟨le_trans (le_max_left z a) h.1, ?_⟩
    intro y hy
    rcases List.mem_cons.1 hy with h1 | h1
    · rw [h1]; exact le_trans (le_max_right z a) h.1
    · exact h.2 y h1

theorem le_maxZindex (table : Table) (r : Record) (hr : r ∈ table) :
    r.zindex ≤ maxZindex table := by
  cases table with
  | nil => simp at hr
  | cons a rest =>
    simp only [maxZindex, List.map_cons]
    have h := le_mathMax (rest.map (fun r => r.zindex)) a.zindex
    rcases List.mem_cons.1 hr with h1 | h1
    · rw [h1]; exact h.1
    · exact h.2 _ (List.mem_map_of_mem (fun r => r.zindex) h1)

theorem add_distinctIds (table : Table) (newId : String) (option : TaskOption)
    (h : DistinctIds table) : DistinctIds (add table newId option).2 := by
  simp only [add, tableAdd, getAll]
  split
  · exact h
  · rename_i hnew
    rw [DistinctIds, List.map_append, List.nodup_append]
    refine ⟨h, by simp, ?_⟩
    intro x hx hx2
    simp only [List.map_cons, List.map_nil, List.mem_singleton] at hx2
    exact hnew (hx2 ▸ hx)

theorem add_distinctZ (table : Table) (newId : String) (option : TaskOption)
    (h : DistinctZ table) : DistinctZ (add table newId option).2 := by
  simp only [add, tableAdd, getAll]
  split
  · exact h
  · rw [DistinctZ, List.map_append, List.nodup_append]
    refine ⟨h, by simp, ?_⟩
    intro z hz hz2
    simp only [List.map_cons, List.map_nil, List.mem_singleton] at hz2
    obtain ⟨r, hr, hrz⟩ := List.mem_map.1 hz
    have := le_maxZindex table r hr
    omega

theorem edit_ids (table : Table) (id : String) (option : EditOption) :
    (edit table id option).map (fun r => r.id) = table.map (fun r => r.id) := by
  simp only [edit, tableUpdate, List.map_map]
  apply List.map_congr_left
  intro r _
  by_cases hr : r.id = id <;> simp [hr, applyEdit]

theorem edit_zindexes (table : Table) (id : String) (option : EditOption) :
    (edit table id option).map (fun r => r.zindex) = table.map (fun r => r.zindex) := by
  simp only [edit, tableUpdate, List.map_map]
  apply List.map_congr_left
  intro r _
  by_cases hr : r.id = id <;> simp [hr, applyEdit]

theorem deleteTask_distinctIds (table : Table) (id : String) (h : DistinctIds table) :
    DistinctIds (deleteTask table id) :=
  List.Nodup.sublist (List.Sublist.map _ (List.filter_sublist _)) h

theorem deleteTask_distinctZ (table : Table) (id : String) (h : DistinctZ table) :
    DistinctZ (deleteTask table id) :=
  List.Nodup.sublist (List.Sublist.map _ (List.filter_sublist _)) h

theorem run_invariant (op : StoreOp) (table : Table) (h : DistinctIds table ∧ DistinctZ table) :
    DistinctIds (op.run table) ∧ DistinctZ (op.run table) := by
  cases op with
  | add newId option => exact ⟨add_distinctIds _ _ _ h.1, add_distinctZ _ _ _ h.2⟩
  | toFront id => exact ⟨toFront_distinctIds _ _ h.1, toFront_distinctZ _ _ h.1⟩
  | edit id option =>
    refine ⟨?_, ?_⟩
    · rw [StoreOp.run, DistinctIds, edit_ids]; exact h.1
    · rw [StoreOp.run, DistinctZ, edit_zindexes]; exact h.2
  | deleteTask id => exact ⟨deleteTask_distinctIds _ _ h.1, deleteTask_distinctZ _ _ h.2⟩

theorem runOps_invariant (ops : List StoreOp) :
    ∀ table : Table, DistinctIds table ∧ DistinctZ table →
      DistinctIds (runOps ops table) ∧ DistinctZ (runOps ops table) := by
  induction ops with
  | nil => intro table h; exact h
  | cons op rest ih =>
    intro table h
    simp only [runOps, List.foldl_cons]
    exact ih _ (run_invariant op table h)

theorem strict_of_sorted (l : List Record) (hs : l.Sorted zle)
    (hz : (l.map (fun r => r.zindex)).Nodup) :
    l.Pairwise (fun a b => a.zindex < b.zindex) := by
  have h1 : l.Pairwise (fun a b => a.zindex ≠ b.zindex) := List.pairwise_map.1 hz
  have h2 : l.Pairwise zle := hs
  refine (h2.and h1).imp ?_
  intro a b hab
  have := hab.1
  have := hab.2
  unfold zle at *
  omega

theorem strict_sortByZindex (l : List Record) (hz : (l.map (fun r => r.zindex)).Nodup) :
    (sortByZindex l).Pairwise (fun a b => a.zindex < b.zindex) :=
  strict_of_sorted _ (sortByZindex_sorted l)
    (((sortByZindex_perm l).map (fun r => r.zindex)).nodup_iff.2 hz)

/-- In a list sorted strictly by `zindex`, with distinct ids, comparing two
rows by `zindex` is comparing the places of their ids. -/
theorem zindex_lt_iff_index_lt (l : List Record)
    (hs : l.Pairwise (fun a b => a.zindex < b.zindex))
    (hid : (l.map (fun r => r.id)).Nodup) (x y : Record) (hx : x ∈ l) (hy : y ∈ l) :
    x.zindex < y.zindex ↔
      (l.map (fun r => r.id)).indexOf x.id < (l.map (fun r => r.id)).indexOf y.id := by
  induction l with
  | nil => simp at hx
  | cons a rest ih =>
    rw [List.pairwise_cons] at hs
    rw [List.map_cons, List.nodup_cons] at hid
    have hne : ∀ r ∈ rest, a.id ≠ r.id := fun r hr h =>
      hid.1 (h ▸ List.mem_map_of_mem (fun r => r.id) hr)
    rcases List.mem_cons.1 hx with hxa | hxr <;> rcases List.mem_cons.1 hy with hya | hyr
    · subst hxa; subst hya; simp
    · subst hxa
      rw [List.map_cons, List.indexOf_cons_self, List.indexOf_cons_ne _ (hne y hyr)]
      exact ⟨fun _ => Nat.succ_pos _, fun _ => hs.1 y hyr⟩
    · subst hya
      rw [List.map_cons, List.indexOf_cons_self, List.indexOf_cons_ne _ (hne x hxr)]
      have := hs.1 x hxr
      constructor
      · intro h; omega
      · intro h; omega
    · rw [List.map_cons, List.indexOf_cons_ne _ (hne x hxr), List.indexOf_cons_ne _ (hne y hyr)]
      rw [ih hs.2 hid.2 hxr hyr]
      exact Nat.succ_lt_succ_iff.symm

theorem others_length (table : Table) (id : String) (h : DistinctIds table)
    (hmem : id ∈ table.map (fun r => r.id)) :
    (table.filter (fun r => r.id ≠ id)).length + 1 = table.length := by
  induction table with
  | nil => simp at hmem
  | cons a rest ih =>
    rw [DistinctIds, List.map_cons, List.nodup_cons] at h
    by_cases ha : a.id = id
    · have hall : rest.filter (fun r => r.id ≠ id) = rest := by
        rw [List.filter_eq_self]
        intro r hr
        have : r.id ≠ id := fun hrid =>
          h.1 (ha ▸ hrid ▸ List.mem_map_of_mem (fun r => r.id) hr)
        simpa using this
      rw [List.filter_cons_of_neg (by simpa using ha), hall, List.length_cons]
    · have hmem1 : id ∈ rest.map (fun r => r.id) := by
        rw [List.map_cons, List.mem_cons] at hmem
        rcases hmem with h1 | h1
        · exact absurd h1.symm ha
        · exact h1
      have := ih h.2 hmem1
      rw [List.filter_cons_of_pos (by simpa using ha), List.length_cons, this, List.length_cons]

theorem others_length_sorted (table : Table) (id : String) (h : DistinctIds table)
    (hmem : id ∈ table.map (fun r => r.id)) :
    ((sortByZindex (table.filter (fun r => r.id ≠ id))).map (fun r => r.id)).length + 1 =
      table.length := by
  rw [List.length_map, sortByZindex, List.length_insertionSort]
  exact others_length table id h hmem

theorem mem_sorted_others (table : Table) (id : String) (r : Record) :
    r ∈ sortByZindex (table.filter (fun r => r.id ≠ id)) ↔ r ∈ table ∧ r.id ≠ id := by
  rw [(sortByZindex_perm _).mem_iff]
  simp

theorem zOrder_perm (table : Table) : (zOrder table).Perm (table.map (fun r => r.id)) :=
  (sortByZindex_perm table).map _

/-- With distinct `zindex` values, sorting the filtered rows is filtering the
sorted rows. -/
theorem sortByZindex_filter (table : Table) (hz : DistinctZ table) (p : Record → Bool) :
    sortByZindex (table.filter p) = (sortByZindex table).filter p := by
  haveI : IsAntisymm Record (fun a b => a.zindex < b.zindex) :=
    ⟨fun a b h1 h2 => absurd h1 (not_lt.2 (le_of_lt h2))⟩
  have h1 : (sortByZindex (table.filter p)).Pairwise (fun a b => a.zindex < b.zindex) :=
    strict_sortByZindex _ (List.Nodup.sublist (List.Sublist.map _ (List.filter_sublist _)) hz)
  have h2 : ((sortByZindex table).filter p).Pairwise (fun a b => a.zindex < b.zindex) :=
    (strict_sortByZindex _ hz).filter p
  have hp : (sortByZindex (table.filter p)).Perm ((sortByZindex table).filter p) :=
    (sortByZindex_perm _).trans ((sortByZindex_perm table).filter p).symm
  exact List.eq_of_perm_of_sorted hp h1 h2

theorem frontOrder_eq (table : Table) (hz : DistinctZ table) (id : String) :
    frontOrder table id = (zOrder table).filter (fun x => x ≠ id) ++ [id] := by
  rw [frontOrder, sortByZindex_filter table hz, zOrder, List.filter_map]
  rfl

theorem pairwise_indexOf_lt (order : List String) (h : order.Nodup) :
    order.Pairwise (fun a b => order.indexOf a < order.indexOf b) := by
  rw [List.pairwise_iff_getElem]
  intro i j hi hj hij
  rw [List.indexOf_getElem h i hi, List.indexOf_getElem h j hj]
  exact hij

/-- Ranking by `order` and sorting by `zindex` gives `order` back. -/
theorem zOrder_rankBy (order : List String) (table : Table) (hid : DistinctIds table)
    (hnd : order.Nodup) (hp : order.Perm (table.map (fun r => r.id))) :
    zOrder (rankBy order table) = order := by
  haveI : IsAntisymm String (fun a b => order.indexOf a < order.indexOf b) :=
    ⟨fun a b h1 h2 => absurd h1 (not_lt.2 (le_of_lt h2))⟩
  have hsub : ∀ x ∈ table.map (fun r => r.id), x ∈ order := fun x hx => hp.mem_iff.2 hx
  have hz : DistinctZ (rankBy order table) := rankBy_distinctZ order table hid hsub
  have hstrict := strict_sortByZindex (rankBy order table) hz
  have hval : ∀ r ∈ sortByZindex (rankBy order table),
      r.zindex = ((order.indexOf r.id : Nat) : Int) := by
    intro r hr
    rw [(sortByZindex_perm _).mem_iff, rankBy, List.mem_map] at hr
    obtain ⟨r0, _, rfl⟩ := hr
    rfl
  have h1 : (zOrder (rankBy order table)).Pairwise
      (fun a b => order.indexOf a < order.indexOf b) := by
    rw [zOrder, List.pairwise_map]
    refine hstrict.imp_of_mem ?_
    intro a b ha hb hab
    rw [hval a ha, hval b hb] at hab
    exact_mod_cast hab
  have hperm : (zOrder (rankBy order table)).Perm order := by
    refine (zOrder_perm _).trans ?_
    rw [rankBy_ids]
    exact hp.symm
  exact List.eq_of_perm_of_sorted hperm h1 (pairwise_indexOf_lt order hnd)

theorem toFront_rankBy (order : List String) (table : Table) (hid : DistinctIds table)
    (hnd : order.Nodup) (hp : order.Perm (table.map (fun r => r.id))) (id : String) :
    toFront (rankBy order table) id =
      rankBy (order.filter (fun x => x ≠ id) ++ [id]) table := by
  have hid1 : DistinctIds (rankBy order table) := by rw [DistinctIds, rankBy_ids]; exact hid
  have hsub : ∀ x ∈ table.map (fun r => r.id), x ∈ order := fun x hx => hp.mem_iff.2 hx
  rw [toFront_eq _ id hid1, frontOrder_eq _ (rankBy_distinctZ order table hid hsub),
    zOrder_rankBy order table hid hnd hp, rankBy_rankBy]

theorem moveLast_nodup (order : List String) (hnd : order.Nodup) (id : String) :
    (order.filter (fun x => x ≠ id) ++ [id]).Nodup := by
  rw [List.nodup_append]
  refine ⟨hnd.filter _, List.nodup_singleton _, ?_⟩
  intro x hx hx2
  rw [List.mem_singleton] at hx2
  rw [List.mem_filter] at hx
  simpa [hx2] using hx.2

theorem moveLast_perm (order : List String) (hnd : order.Nodup) (id : String)
    (hmem : id ∈ order) : (order.filter (fun x => x ≠ id) ++ [id]).Perm order := by
  rw [List.perm_ext_iff_of_nodup (moveLast_nodup order hnd id) hnd]
  intro x
  rw [List.mem_append, List.mem_filter, List.mem_singleton]
  by_cases hx : x = id
  · simp [hx, hmem]
  · simp [hx]

/-- Bringing the ids of `front` to the front one after the other, on a ranked
table: the ids outside `front` keep their order, followed by `front`. -/
theorem foldl_toFront_rankBy (table : Table) (hid : DistinctIds table) (front : List String) :
    ∀ order : List String, order.Nodup → order.Perm (table.map (fun r => r.id)) →
      front.Nodup → (∀ x ∈ front, x ∈ order) →
      front.foldl toFront (rankBy order table) =
        rankBy (order.filter (fun x => x ∉ front) ++ front) table := by
  induction front with
  | nil =>
    intro order _ _ _ _
    simp
  | cons f rest ih =>
    intro order hnd hp hfront hsub
    rw [List.nodup_cons] at hfront
    have hf : f ∈ order := hsub f (List.mem_cons_self _ _)
    rw [List.foldl_cons, toFront_rankBy order table hid hnd hp f,
      ih _ (moveLast_nodup order hnd f) ((moveLast_perm order hnd f hf).trans hp) hfront.2]
    · congr 1
      rw [List.filter_append, List.filter_filter, List.append_assoc]
      congr 1
      · apply List.filter_congr
        intro x _
        simp [List.mem_cons, not_or, Bool.and_comm]
      · rw [List.filter_cons_of_pos (by simpa using hfront.1)]
        simp
    · intro x hx
      rw [List.mem_append, List.mem_filter, List.mem_singleton]
      by_cases hxf : x = f
      · exact Or.inr hxf
      · exact Or.inl ⟨hsub x (List.mem_cons_of_mem _ hx), by simpa using hxf⟩

/-- Bringing a non-empty list of ids to the front one after the other. -/
theorem foldl_toFront_eq (table : Table) (hid : DistinctIds table) (hz : DistinctZ table)
    (f : String) (rest : List String) (hfront : (f :: rest).Nodup)
    (hsub : ∀ x ∈ f :: rest, x ∈ table.map (fun r => r.id)) :
    (f :: rest).foldl toFront table =
      rankBy ((zOrder table).filter (fun x => x ∉ f :: rest) ++ f :: rest) table := by
  have hnd : (zOrder table).Nodup := (zOrder_perm table).nodup_iff.2 hid
  have hsub1 : ∀ x ∈ f :: rest, x ∈ zOrder table := fun x hx =>
    (zOrder_perm table).mem_iff.2 (hsub x hx)
  have h := foldl_toFront_rankBy table hid (f :: rest) (zOrder table) hnd (zOrder_perm table)
    hfront hsub1
  rw [← h, List.foldl_cons, List.foldl_cons, toFront_rankBy _ table hid hnd (zOrder_perm table),
    toFront_eq table f hid, frontOrder_eq table hz]

theorem zOrder_length (table : Table) : (zOrder table).length = table.length := by
  rw [zOrder, List.length_map, sortByZindex, List.length_insertionSort]

/-- The ids outside `front`, by ascending `zindex`, are as many as the rows
less the ids of `front`. -/
theorem outside_length (table : Table) (hid : DistinctIds table) (front : List String)
    (hfront : front.Nodup) (hsub : ∀ x ∈ front, x ∈ table.map (fun r => r.id)) :
    ((zOrder table).filter (fun x => x ∉ front)).length + front.length = table.length := by
  have hnd : (zOrder table).Nodup := (zOrder_perm table).nodup_iff.2 hid
  have hsplit := List.length_eq_length_filter_add (l := zOrder table)
    (fun x => decide (x ∉ front))
  have hperm : ((zOrder table).filter (fun x => !decide (x ∉ front))).Perm front := by
    rw [List.perm_ext_iff_of_nodup (hnd.filter _) hfront]
    intro x
    rw [List.mem_filter]
    constructor
    · intro h
      simpa using h.2
    · intro h
      exact ⟨(zOrder_perm table).mem_iff.2 (hsub x h), by simpa using h⟩
  rw [hperm.length_eq, zOrder_length] at hsplit
  omega

theorem outside_eq_map (table : Table) (front : List String) :
    (zOrder table).filter (fun x => x ∉ front) =
      ((sortByZindex table).filter (fun r => r.id ∉ front)).map (fun r => r.id) := by
  rw [zOrder, List.filter_map]
  rfl

/-- What bringing the ids of a non-empty list `front` to the front, one after
the other, does to a store with distinct ids and distinct `zindex` values. -/
theorem foldl_toFront_contract (table : Table) (hid : DistinctIds table) (hz : DistinctZ table)
    (front : List String) (hne : front ≠ []) (hfront : front.Nodup)
    (hsub : ∀ x ∈ front, x ∈ table.map (fun r => r.id)) :
    (front.foldl toFront table).map (fun r => r.id) = table.map (fun r => r.id) ∧
    (∀ (j : Nat) (hj : j < front.length),
      zindexOf (front.foldl toFront table) front[j] =
        some ((table.length : Int) - (front.length : Int) + (j : Int))) ∧
    (∀ X ∈ table, X.id ∉ front →
      ∃ zx : Int, zindexOf (front.foldl toFront table) X.id = some zx ∧
        0 ≤ zx ∧ zx ≤ (table.length : Int) - (front.length : Int) - 1) ∧
    (∀ v : Nat, (v : Int) ≤ (table.length : Int) - (front.length : Int) - 1 →
      ∃ X ∈ table, X.id ∉ front ∧ zindexOf (front.foldl toFront table) X.id = some (v : Int)) ∧
    (∀ X ∈ table, ∀ Y ∈ table, X.id ∉ front → Y.id ∉ front →
      ∀ zx zy : Int, zindexOf (front.foldl toFront table) X.id = some zx →
        zindexOf (front.foldl toFront table) Y.id = some zy →
        (X.zindex < Y.zindex ↔ zx < zy)) := by
  obtain ⟨f, rest, rfl⟩ := List.exists_cons_of_ne_nil hne
  have heq := foldl_toFront_eq table hid hz f rest hfront hsub
  have hlen := outside_length table hid (f :: rest) hfront hsub
  have hndO : (zOrder table).Nodup := (zOrder_perm table).nodup_iff.2 hid
  have hndA : ((zOrder table).filter (fun x => x ∉ f :: rest)).Nodup := hndO.filter _
  have hstrict : ((sortByZindex table).filter (fun r => r.id ∉ f :: rest)).Pairwise
      (fun a b => a.zindex < b.zindex) := (strict_sortByZindex table hz).filter _
  have hmemA : ∀ X ∈ table, X.id ∉ f :: rest →
      X ∈ (sortByZindex table).filter (fun r => r.id ∉ f :: rest) := by
    intro X hX hXf
    rw [List.mem_filter]
    exact ⟨(sortByZindex_perm table).mem_iff.2 hX, by simpa using hXf⟩
  have hout : ∀ X ∈ table, X.id ∉ f :: rest →
      zindexOf ((f :: rest).foldl toFront table) X.id =
        some ((((zOrder table).filter (fun x => x ∉ f :: rest)).indexOf X.id : Nat) : Int) ∧
      ((zOrder table).filter (fun x => x ∉ f :: rest)).indexOf X.id <
        ((zOrder table).filter (fun x => x ∉ f :: rest)).length := by
    intro X hX hXf
    have hin : X.id ∈ (zOrder table).filter (fun x => x ∉ f :: rest) := by
      rw [outside_eq_map]
      exact List.mem_map_of_mem _ (hmemA X hX hXf)
    refine ⟨?_, List.indexOf_lt_length.2 hin⟩
    rw [heq, zindexOf_rankBy _ _ _ (List.mem_map_of_mem _ hX), List.indexOf_append_of_mem hin]
  refine ⟨?_, ?_, ?_, ?_, ?_⟩
  · rw [heq, rankBy_ids]
  · intro j hj
    have hnotin : (f :: rest)[j] ∉ (zOrder table).filter (fun x => x ∉ f :: rest) := by
      intro h
      have := (List.mem_filter.1 h).2
      simp only [decide_eq_true_eq] at this
      exact this (List.getElem_mem hj)
    rw [heq, zindexOf_rankBy _ _ _ (hsub _ (List.getElem_mem hj)),
      List.indexOf_append_of_not_mem hnotin, List.indexOf_getElem hfront j hj]
    congr 1
    push_cast
    omega
  · intro X hX hXf
    obtain ⟨h1, h2⟩ := hout X hX hXf
    exact ⟨_, h1, by omega, by omega⟩
  · intro v hv
    have hvlt : v < ((sortByZindex table).filter (fun r => r.id ∉ f :: rest)).length := by
      have := hlen
      rw [outside_eq_map, List.length_map] at this
      omega
    have hXmem := List.getElem_mem hvlt
    have hX1 := List.mem_filter.1 hXmem
    have hXt : ((sortByZindex table).filter (fun r => r.id ∉ f :: rest))[v] ∈ table :=
      (sortByZindex_perm table).mem_iff.1 hX1.1
    have hXf : ((sortByZindex table).filter (fun r => r.id ∉ f :: rest))[v].id ∉ f :: rest := by
      simpa using hX1.2
    refine ⟨_, hXt, hXf, ?_⟩
    rw [(hout _ hXt hXf).1]
    have hv2 : v < ((zOrder table).filter (fun x => x ∉ f :: rest)).length := by
      rw [outside_eq_map, List.length_map]; exact hvlt
    have := List.indexOf_getElem hndA v hv2
    simp only [outside_eq_map, List.getElem_map] at this ⊢
    rw [this]
  · intro X hX Y hY hXf hYf zx zy hzx hzy
    rw [(hout X hX hXf).1] at hzx
    rw [(hout Y hY hYf).1] at hzy
    cases hzx
    cases hzy
    have hndB : (((sortByZindex table).filter (fun r => r.id ∉ f :: rest)).map
        (fun r => r.id)).Nodup := by
      rw [← outside_eq_map]; exact hndA
    rw [zindex_lt_iff_index_lt _ hstrict hndB X Y (hmemA X hX hXf) (hmemA Y hY hYf),
      outside_eq_map]
    exact Nat.cast_lt.symm

end StoreLemmas

/-! ## Facts about the board -/

section BoardLemmas

open Task

theorem length_modifyAt {α : Type} (l : List α) (i : Nat) (f : α → α) :
    (modifyAt l i f).length = l.length := by
  unfold modifyAt
  split <;> simp

theorem getElem?_modifyAt {α : Type} (l : List α) (i j : Nat) (f : α → α) :
    (modifyAt l i f)[j]? = if i = j then (l[j]?).map f else l[j]? := by
  unfold modifyAt
  by_cases hij : i = j
  · subst hij
    cases h : l[i]? with
    | none => simp [h]
    | some a =>
      have hlt : i < l.length := (List.getElem?_eq_some.1 h).1
      simp [List.getElem?_set_self hlt]
  · cases h : l[i]? with
    | none => simp [hij]
    | some a => simp [hij, List.getElem?_set_ne hij]

theorem modifyAt_congr {α : Type} (l : List α) (i : Nat) (f g : α → α)
    (h : ∀ a, l[i]? = some a → f a = g a) : modifyAt l i f = modifyAt l i g := by
  unfold modifyAt
  cases h1 : l[i]? with
  | none => rfl
  | some a => simp [h a h1]

theorem modifyAt_modifyAt {α : Type} (l : List α) (i : Nat) (f g : α → α) :
    modifyAt (modifyAt l i f) i g = modifyAt l i (fun a => g (f a)) := by
  apply List.ext_getElem?
  intro j
  rw [getElem?_modifyAt, getElem?_modifyAt, getElem?_modifyAt]
  by_cases hij : i = j
  · subst hij
    simp only [if_true, Option.map_map]
    rfl
  · simp [hij]

theorem set_eq_modifyAt {α : Type} (l : List α) (i : Nat) (a : α) (f : α → α)
    (h : l[i]? = some a) : l.set i (f a) = modifyAt l i f := by
  unfold modifyAt
  rw [h]

/-- A loop over task indexes whose body changes the visited instance by a
fixed idempotent `g`, as long as `P` holds: the instances afterwards. -/
theorem foldl_instances_getElem? (step : Board → Nat → Board) (g : Task → Task)
    (P : Board → Prop) (hP : ∀ b f, P b → P (step b f))
    (hstep : ∀ b f, P b → (step b f).instances = modifyAt b.instances f g)
    (hidem : ∀ t, g (g t) = g t) :
    ∀ (l : List Nat) (b : Board), P b → ∀ j : Nat,
      (l.foldl step b).instances[j]? =
        if j ∈ l then (b.instances[j]?).map g else b.instances[j]? := by
  intro l
  induction l with
  | nil => intro b _ j; simp
  | cons f rest ih =>
    intro b hb j
    rw [List.foldl_cons, ih (step b f) (hP b f hb) j, hstep b f hb, getElem?_modifyAt]
    by_cases hfj : f = j
    · subst hfj
      by_cases hr : f ∈ rest
      · have hgg : g ∘ g = g := funext hidem
        simp [hr, Option.map_map, hgg]
      · simp [hr]
    · have hjf : ¬ j = f := fun h => hfj h.symm
      by_cases hr : j ∈ rest
      · simp [hr, hfj]
      · simp [hr, hfj, hjf]

theorem foldl_preserves (step : Board → Nat → Board) (P : Board → Prop)
    (hP : ∀ b f, P b → P (step b f)) :
    ∀ (l : List Nat) (b : Board), P b → P (l.foldl step b) := by
  intro l
  induction l with
  | nil => intro b hb; exact hb
  | cons f rest ih => intro b hb; exact ih _ (hP b f hb)

theorem modify_instances (b : Board) (i : Nat) (f : Task → Task) :
    (b.modify i f).instances = modifyAt b.instances i f := rfl

/-- The class `focused` of the instance `j`, if there is one. -/
theorem mem_getAllFocused (b : Board) (j : Nat) :
    j ∈ getAllFocused b ↔ (b.instances[j]?).map (fun t => t.elm.classFocused) = some true := by
  unfold getAllFocused isFocused
  rw [List.mem_filter, List.mem_range]
  cases h : b.instances[j]? with
  | none =>
    have : b.instances.length ≤ j := List.getElem?_eq_none_iff.1 h
    simp
  | some t =>
    have : j < b.instances.length := (List.getElem?_eq_some.1 h).1
    simp [this]

theorem length_eq_of_getElem?_map {α β : Type} (l1 l2 : List α) (φ : α → β)
    (h : ∀ j : Nat, (l1[j]?).map φ = (l2[j]?).map φ) : l1.length = l2.length := by
  have key : ∀ (la lc : List α), (∀ j : Nat, (la[j]?).map φ = (lc[j]?).map φ) →
      la.length ≤ lc.length := by
    intro la lc hac
    by_contra hlt
    have hlt : lc.length < la.length := Nat.lt_of_not_le hlt
    have h1 := hac lc.length
    rw [List.getElem?_eq_none (Nat.le_refl _), List.getElem?_eq_getElem hlt] at h1
    simp at h1
  exact Nat.le_antisymm (key l1 l2 h) (key l2 l1 (fun j => (h j).symm))

theorem getAllFocused_congr (b1 b2 : Board)
    (h : ∀ j : Nat, (b1.instances[j]?).map (fun t => t.elm.classFocused) =
      (b2.instances[j]?).map (fun t => t.elm.classFocused)) :
    getAllFocused b1 = getAllFocused b2 := by
  have hlen := length_eq_of_getElem?_map _ _ _ h
  unfold getAllFocused
  rw [hlen]
  apply List.filter_congr
  intro j _
  have hj := h j
  unfold isFocused
  cases h1 : b1.instances[j]? <;> cases h2 : b2.instances[j]? <;> simp [h1, h2] at hj ⊢
  exact hj

theorem getPosition_eq (b : Board) (f : Nat) (a : Task) (h : b.instances[f]? = some a) :
    getPosition b f = { left := a.elm.styleLeft, top := a.elm.styleTop } := by
  unfold getPosition
  rw [h]

/-- The instances after `mousedown`, from those after its first statement. -/
theorem mousedown_instances (b : Board) (this : Nat) (w : Window) (e : MouseEvent) (j : Nat) :
    (mousedown b this w e).instances[j]? =
      ((mousedownFocus b this e).instances[j]?).map (fun t =>
        let t2 : Task :=
          if j ∈ getAllFocused (mousedownFocus b this e) then
            { t with elm := { t.elm with classMoving := true } }
          else t
        let t3 : Task :=
          if this = j then { t2 with focused := getAllFocused (mousedownFocus b this e) } else t2
        let t4 : Task :=
          if this = j then
            { t3 with origin := { t3.origin with x := (getMousePosition w e).1,
                                                 y := (getMousePosition w e).2 } }
          else t3
        if j ∈ getAllFocused (mousedownFocus b this e) then
          { t4 with origin := { t4.origin with
              pos := { left := t4.elm.styleLeft, top := t4.elm.styleTop } } }
        else t4) := by
  unfold mousedown
  simp only []
  rw [foldl_instances_getElem?
    (fun b f => b.modify f (fun t => { t with origin := { t.origin with pos := getPosition b f } }))
    (fun t => { t with origin := { t.origin with
      pos := { left := t.elm.styleLeft, top := t.elm.styleTop } } })
    (fun _ => True) (fun _ _ _ => trivial)
    (fun b f _ => by
      rw [modify_instances]
      apply modifyAt_congr
      intro a ha
      rw [getPosition_eq b f a ha])
    (fun t => rfl) _ _ trivial j]
  rw [modify_instances, getElem?_modifyAt]
  simp only []
  rw [modify_instances, getElem?_modifyAt]
  rw [foldl_instances_getElem?
    (fun b f => b.modify f (fun t => { t with elm := { t.elm with classMoving := true } }))
    (fun t => { t with elm := { t.elm with classMoving := true } })
    (fun _ => True) (fun _ _ _ => trivial) (fun b f _ => rfl) (fun t => rfl) _ _ trivial j]
  cases (mousedownFocus b this e).instances[j]? with
  | none => simp
  | some t => split_ifs <;> simp

theorem setPosition_instances (b : Board) (f : Nat) (pos : Position) :
    (setPosition b f pos).instances =
      modifyAt b.instances f
        (fun t => { t with elm := { t.elm with styleTop := pos.top, styleLeft := pos.left } }) := by
  unfold setPosition
  cases h : b.instances[f]? with
  | none => simp [modifyAt, h]
  | some t => simp [modifyAt, h]

theorem comeback_idem (p m : ℚ) (hm : 10 ≤ m) : comeback (comeback p m) m = comeback p m := by
  unfold comeback
  split_ifs <;> first | rfl | linarith

theorem comeback_range (p m : ℚ) (hm : 10 ≤ m) :
    0 ≤ comeback p m ∧ comeback p m ≤ m := by
  unfold comeback
  split_ifs <;> constructor <;> linarith

theorem comeback_of_range (p m : ℚ) (h0 : 0 ≤ p) (h1 : p ≤ m) : comeback p m = p := by
  unfold comeback
  split_ifs <;> first | rfl | linarith

theorem settle_idem (t : Task) : settle (settle t) = settle t := by
  simp [settle, comeback_idem _ 100 (by norm_num), comeback_idem _ 200 (by norm_num)]

/-- The instances after `drop`. -/
theorem drop_instances (b : Board) (this : Nat) (t : Task) (ht : b.instances[this]? = some t)
    (j : Nat) :
    (drop b this).instances[j]? =
      (b.instances[j]?).map (fun x =>
        let x1 : Task := if j ∈ t.focused then settle x else x
        if this = j then { x1 with focused := [] } else x1) := by
  unfold drop
  rw [ht]
  simp only []
  rw [modify_instances, getElem?_modifyAt]
  rw [foldl_instances_getElem?
    (fun b f =>
      setPosition
        (b.modify f (fun t => { t with elm := { t.elm with classMoving := false } }))
        f { left := comeback (getPosition b f).left 100, top := comeback (getPosition b f).top 200 })
    settle (fun _ => True) (fun _ _ _ => trivial)
    (fun b f _ => by
      rw [setPosition_instances, modify_instances, modifyAt_modifyAt]
      apply modifyAt_congr
      intro a ha
      rw [getPosition_eq b f a ha]
      rfl)
    settle_idem _ _ trivial j]
  cases b.instances[j]? with
  | none => simp
  | some x => split_ifs <;> simp

theorem origin_eq (b : Board) (f : Nat) (a : Task) (h : b.instances[f]? = some a) :
    b.origin f = a.origin := by
  unfold Board.origin
  rw [h]

/-- The instances after `move`. -/
theorem move_instances (b : Board) (this : Nat) (w : Window) (e : MouseEvent) (t : Task)
    (ht : b.instances[this]? = some t) (j : Nat) :
    (move b this w e).instances[j]? =
      (b.instances[j]?).map (fun x =>
        let x1 : Task :=
          if scrollCondition w e t.scrolling = true ∧ this = j then { x with scrolling := true }
          else x
        if j ∈ t.focused then follow (getMousePosition w e) t.origin x1 else x1) := by
  unfold move
  rw [ht]
  simp only []
  have hfold := foldl_instances_getElem?
    (fun b f => setPosition b f
      { left := (b.origin f).pos.left + ((getMousePosition w e).1 - (b.origin this).x)
        top := (b.origin f).pos.top + ((getMousePosition w e).2 - (b.origin this).y) })
    (follow (getMousePosition w e) t.origin)
    (fun b => b.origin this = t.origin)
    (fun b f hb => by
      simp only []
      unfold Board.origin at hb ⊢
      rw [setPosition_instances, getElem?_modifyAt]
      by_cases hf : f = this
      · subst hf
        cases h : b.instances[f]? with
        | none => rw [h] at hb; simpa using hb
        | some a => rw [h] at hb; simpa using hb
      · simpa [hf] using hb)
    (fun b f hb => by
      simp only []
      rw [setPosition_instances]
      apply modifyAt_congr
      intro a ha
      rw [origin_eq b f a ha, hb]
      rfl)
    (fun x => rfl)
  by_cases hc : scrollCondition w e t.scrolling = true
  · rw [if_pos hc, hfold t.focused _ (by
      show Board.origin _ this = t.origin
      unfold Board.origin
      rw [modify_instances, getElem?_modifyAt]
      simp [Scroll.doScroll, ht]) j]
    rw [modify_instances, getElem?_modifyAt]
    simp only [Scroll.doScroll]
    cases b.instances[j]? with
    | none => simp
    | some x => split_ifs <;> simp_all
  · rw [if_neg hc, hfold t.focused _ (origin_eq b this t ht) j]
    cases b.instances[j]? with
    | none => simp
    | some x => split_ifs <;> simp_all

theorem unfocusAll_instances (b : Board) (j : Nat) :
    (unfocusAll b).instances[j]? =
      if j ∈ getAllFocused b then
        (b.instances[j]?).map (fun t => { t with elm := { t.elm with classFocused := false } })
      else b.instances[j]? := by
  unfold unfocusAll
  exact foldl_instances_getElem? unfocus
    (fun t => { t with elm := { t.elm with classFocused := false } })
    (fun _ => True) (fun _ _ _ => trivial) (fun b f _ => rfl) (fun t => rfl) _ _ trivial j

/-- The instances after the first statement of `mousedown`. -/
theorem mousedownFocus_instances (b : Board) (this : Nat) (e : MouseEvent) (j : Nat) :
    (mousedownFocus b this e).instances[j]? =
      (b.instances[j]?).map (fun t =>
        if e.ctrlKey = true then
          (if this = j then { t with elm := { t.elm with classFocused := !t.elm.classFocused } }
           else t)
        else if isFocused b this = true then t
        else { t with elm := { t.elm with classFocused := decide (this = j) } }) := by
  unfold mousedownFocus
  by_cases hc : e.ctrlKey = true
  · rw [if_pos hc, modify_instances, getElem?_modifyAt]
    cases b.instances[j]? with
    | none => simp
    | some t => split_ifs <;> simp_all
  · by_cases hf : isFocused b this = true
    · simp [hc, hf]
    · have hf2 : (!isFocused b this) = true := by simpa using hf
      rw [if_neg hc, if_pos hf2]
      unfold focus
      rw [modify_instances, getElem?_modifyAt, unfocusAll_instances]
      simp only [mem_getAllFocused]
      cases h : b.instances[j]? with
      | none => simp
      | some t =>
        cases t with
        | mk id elm origin focused scrolling =>
          cases elm with
          | mk eid cf ce cm cc sl st dt iv se ov om it =>
            by_cases htj : this = j
            · subst htj
              cases cf
              · simp [hc, hf]
              · exact absurd (by simp [isFocused, h]) hf
            · cases cf <;> simp [htj, hc, hf]

theorem getPosition_of_map (b1 b2 : Board) (j : Nat)
    (h : (b1.instances[j]?).map (fun t => (t.elm.styleLeft, t.elm.styleTop)) =
      (b2.instances[j]?).map (fun t => (t.elm.styleLeft, t.elm.styleTop))) :
    getPosition b1 j = getPosition b2 j := by
  unfold getPosition
  cases h1 : b1.instances[j]? <;> cases h2 : b2.instances[j]? <;> simp [h1, h2] at h ⊢
  exact h

theorem mousedownFocus_position (b : Board) (this : Nat) (e : MouseEvent) (j : Nat) :
    getPosition (mousedownFocus b this e) j = getPosition b j := by
  apply getPosition_of_map
  rw [mousedownFocus_instances]
  cases b.instances[j]? with
  | none => simp
  | some t => simp only [Option.map_some']; split_ifs <;> rfl

theorem mousedown_classFocused (b : Board) (this : Nat) (w : Window) (e : MouseEvent) (j : Nat) :
    ((mousedown b this w e).instances[j]?).map (fun t => t.elm.classFocused) =
      ((mousedownFocus b this e).instances[j]?).map (fun t => t.elm.classFocused) := by
  rw [mousedown_instances]
  cases (mousedownFocus b this e).instances[j]? with
  | none => simp
  | some t => simp only [Option.map_some']; split_ifs <;> rfl

theorem mousedown_getAllFocused (b : Board) (this : Nat) (w : Window) (e : MouseEvent) :
    getAllFocused (mousedown b this w e) = getAllFocused (mousedownFocus b this e) :=
  getAllFocused_congr _ _ (mousedown_classFocused b this w e)

theorem mousedownFocus_ctrl_classFocused (b : Board) (this : Nat) (e : MouseEvent)
    (hctrl : e.ctrlKey = true) (j : Nat) :
    ((mousedownFocus b this e).instances[j]?).map (fun t => t.elm.classFocused) =
      ((b.instances[j]?).map (fun t => t.elm.classFocused)).map
        (fun c => if this = j then !c else c) := by
  rw [mousedownFocus_instances]
  cases b.instances[j]? with
  | none => simp
  | some t => by_cases htj : this = j <;> simp [hctrl, htj]

theorem drop_classFocused (b : Board) (this : Nat) (j : Nat) :
    ((drop b this).instances[j]?).map (fun t => t.elm.classFocused) =
      (b.instances[j]?).map (fun t => t.elm.classFocused) := by
  cases ht : b.instances[this]? with
  | none => unfold drop; rw [ht]
  | some t =>
    rw [drop_instances b this t ht]
    cases b.instances[j]? with
    | none => simp
    | some x => simp only [Option.map_some']; split_ifs <;> rfl

theorem mousedown_position (b : Board) (this : Nat) (w : Window) (e : MouseEvent) (j : Nat) :
    getPosition (mousedown b this w e) j = getPosition b j := by
  rw [← mousedownFocus_position b this e j]
  apply getPosition_of_map
  rw [mousedown_instances]
  cases (mousedownFocus b this e).instances[j]? with
  | none => simp
  | some t => simp only [Option.map_some']; split_ifs <;> rfl

theorem drop_getAllFocused (b : Board) (this : Nat) :
    getAllFocused (drop b this) = getAllFocused b :=
  getAllFocused_congr _ _ (drop_classFocused b this)

theorem mousedownFocus_length (b : Board) (this : Nat) (e : MouseEvent) :
    (mousedownFocus b this e).instances.length = b.instances.length := by
  apply length_eq_of_getElem?_map _ _ (fun t => t.id)
  intro j
  rw [mousedownFocus_instances]
  cases b.instances[j]? with
  | none => simp
  | some t => simp only [Option.map_some']; split_ifs <;> rfl

/-- The dragging instance after `mousedown`: its closure `focused` is the focus
set and its origin the pointer position. -/
theorem mousedown_this (b : Board) (this : Nat) (w : Window) (e : MouseEvent)
    (hthis : this < b.instances.length) :
    ∃ td : Task, (mousedown b this w e).instances[this]? = some td ∧
      td.focused = getAllFocused (mousedown b this w e) ∧
      td.origin.x = (getMousePosition w e).1 ∧ td.origin.y = (getMousePosition w e).2 := by
  have hlt : this < (mousedownFocus b this e).instances.length := by
    rw [mousedownFocus_length]; exact hthis
  rw [mousedown_getAllFocused, mousedown_instances, List.getElem?_eq_getElem hlt]
  refine ⟨_, rfl, ?_, ?_, ?_⟩ <;> simp only [if_true] <;> split_ifs <;> rfl

/-- A dragged instance after `mousedown`: its move origin is its position. -/
theorem mousedown_focused (b : Board) (this : Nat) (w : Window) (e : MouseEvent) (A : Nat)
    (hA : A ∈ getAllFocused (mousedown b this w e)) :
    ∃ tA : Task, (mousedown b this w e).instances[A]? = some tA ∧
      tA.origin.pos = getPosition b A := by
  rw [mousedown_getAllFocused] at hA
  rw [← mousedownFocus_position b this e A, mousedown_instances]
  have hA2 := (mem_getAllFocused _ _).1 hA
  cases h : (mousedownFocus b this e).instances[A]? with
  | none => rw [h] at hA2; simp at hA2
  | some t =>
    refine ⟨_, rfl, ?_⟩
    rw [getPosition_eq _ _ _ h]
    simp only [hA, if_true]
    split_ifs <;> rfl

/-- After `mousedown` and `move`, every dragged task has moved by the pointer
delta. -/
theorem gesture_position (b : Board) (this A : Nat) (wd : Window) (ed : MouseEvent)
    (wm : Window) (em : MouseEvent) (hthis : this < b.instances.length)
    (hA : A ∈ getAllFocused (mousedown b this wd ed)) :
    getPosition (move (mousedown b this wd ed) this wm em) A =
      { left := (getPosition b A).left +
          ((getMousePosition wm em).1 - (getMousePosition wd ed).1)
        top := (getPosition b A).top +
          ((getMousePosition wm em).2 - (getMousePosition wd ed).2) } := by
  obtain ⟨td, htd, hfoc, hx, hy⟩ := mousedown_this b this wd ed hthis
  obtain ⟨tA, htA, hpos⟩ := mousedown_focused b this wd ed A hA
  have hA2 : A ∈ td.focused := by rw [hfoc]; exact hA
  have h := move_instances (mousedown b this wd ed) this wm em td htd A
  rw [htA] at h
  simp only [Option.map_some', hA2, if_true] at h
  rw [getPosition_eq _ _ _ h, ← hpos, ← hx, ← hy]
  split_ifs <;> rfl

/-- The closure `focused` of the dragging instance survives `move`. -/
theorem move_closureFocused (b : Board) (this : Nat) (w : Window) (e : MouseEvent) :
    closureFocused (move b this w e) this = closureFocused b this := by
  unfold closureFocused
  cases ht : b.instances[this]? with
  | none => unfold move; rw [ht]; simp [ht]
  | some t =>
    rw [move_instances b this w e t ht, ht]
    simp only [Option.map_some']
    split_ifs <;> rfl

theorem mousedown_closureFocused (b : Board) (this : Nat) (w : Window) (e : MouseEvent)
    (hthis : this < b.instances.length) :
    closureFocused (mousedown b this w e) this = getAllFocused (mousedown b this w e) := by
  obtain ⟨td, htd, hfoc, _, _⟩ := mousedown_this b this w e hthis
  unfold closureFocused
  rw [htd]
  exact hfoc

/-- The position of a task after `drop`: clamped by `comeback` when the task is
one of the dragged ones. -/
theorem drop_position (b : Board) (this f : Nat) (hf : f ∈ closureFocused b this) :
    getPosition (drop b this) f =
      { left := comeback (getPosition b f).left 100,
        top := comeback (getPosition b f).top 200 } := by
  unfold closureFocused at hf
  cases ht : b.instances[this]? with
  | none => rw [ht] at hf; simp at hf
  | some t =>
    rw [ht] at hf
    simp only at hf
    cases hx : b.instances[f]? with
    | none =>
      have h := drop_instances b this t ht f
      rw [hx] at h
      simp only [Option.map_none'] at h
      unfold getPosition
      rw [h, hx]
      norm_num [comeback]
    | some x =>
      have h := drop_instances b this t ht f
      rw [hx] at h
      simp only [Option.map_some', hf, if_true] at h
      rw [getPosition_eq _ _ _ h, getPosition_eq _ _ _ hx]
      split_ifs <;> rfl

theorem modify_getElem?_self (b : Board) (this : Nat) (g : Task → Task) (x : Task)
    (h : b.instances[this]? = some x) : (b.modify this g).instances[this]? = some (g x) := by
  rw [modify_instances, getElem?_modifyAt, h]
  simp

/-- One change to the edit field other than the Tab key keeps the saved text
and the store. -/
theorem editAction_preserves (this : Nat) (s : String) (tbl : Table) (a : EditAction)
    (hnt : ∀ ev : KeyEvent, a = .keydown ev → ev.code ≠ "Tab") (b : Board)
    (hP : (∃ x : Task, b.instances[this]? = some x ∧ x.elm.originalValue = some s) ∧
      b.table = tbl) :
    (∃ x : Task, (a.run this b).instances[this]? = some x ∧ x.elm.originalValue = some s) ∧
      (a.run this b).table = tbl := by
  obtain ⟨⟨x, hx, hs⟩, htbl⟩ := hP
  cases a with
  | typed value cursor =>
    exact ⟨⟨_, modify_getElem?_self b this _ x hx, hs⟩, htbl⟩
  | keydown ev =>
    have hne : ev.code ≠ "Tab" := hnt ev rfl
    simp only [EditAction.run, onkeydown, if_neg hne]
    by_cases hce : (ev.ctrlKey && decide (ev.code = "Enter")) = true
    · rw [if_pos hce]
      by_cases hsh : ev.shiftKey = true
      · rw [if_pos hsh]
        exact ⟨⟨_, modify_getElem?_self b this _ x hx, hs⟩, htbl⟩
      · rw [if_neg hsh]
        exact ⟨⟨_, modify_getElem?_self b this _ x hx, hs⟩, htbl⟩
    · rw [if_neg hce]
      exact ⟨⟨x, hx, hs⟩, htbl⟩

theorem runEditActions_preserves (this : Nat) (s : String) (tbl : Table) :
    ∀ (actions : List EditAction),
      (∀ ev : KeyEvent, EditAction.keydown ev ∈ actions → ev.code ≠ "Tab") →
      ∀ b : Board,
      ((∃ x : Task, b.instances[this]? = some x ∧ x.elm.originalValue = some s) ∧
        b.table = tbl) →
      (∃ x : Task, (runEditActions b this actions).instances[this]? = some x ∧
          x.elm.originalValue = some s) ∧
        (runEditActions b this actions).table = tbl := by
  intro actions
  induction actions with
  | nil => intro _ b hP; exact hP
  | cons a rest ih =>
    intro hnt b hP
    simp only [runEditActions, List.foldl_cons]
    refine ih (fun ev hev => hnt ev (List.mem_cons_of_mem _ hev)) _
      (editAction_preserves this s tbl a ?_ b hP)
    intro ev hev
    exact hnt ev (hev ▸ List.mem_cons_self _ _)

theorem setPosition_doScrollCalls (b : Board) (f : Nat) (pos : Position) :
    (setPosition b f pos).doScrollCalls = b.doScrollCalls := by
  unfold setPosition
  split <;> rfl

/-- How often `move` calls `Scroll.doScroll`: once when the condition holds. -/
theorem move_doScrollCalls (b : Board) (this : Nat) (w : Window) (e : MouseEvent) (t : Task)
    (ht : b.instances[this]? = some t) :
    (move b this w e).doScrollCalls =
      b.doScrollCalls + (if scrollCondition w e t.scrolling = true then 1 else 0) := by
  unfold move
  rw [ht]
  simp only []
  have hfold : ∀ (n : Nat) (b1 : Board), b1.doScrollCalls = n →
      (t.focused.foldl
        (fun b f => setPosition b f
          { left := (b.origin f).pos.left + ((getMousePosition w e).1 - (b.origin this).x)
            top := (b.origin f).pos.top + ((getMousePosition w e).2 - (b.origin this).y) })
        b1).doScrollCalls = n := by
    intro n b1 h1
    exact foldl_preserves _ (fun b => b.doScrollCalls = n)
      (fun b f hb => by
        show (setPosition b f _).doScrollCalls = n
        rw [setPosition_doScrollCalls]; exact hb) t.focused b1 h1
  by_cases hc : scrollCondition w e t.scrolling = true
  · rw [if_pos hc, if_pos hc]
    exact hfold _ _ rfl
  · rw [if_neg hc, if_neg hc]
    exact hfold _ _ rfl

theorem move_scrollingPending (b : Board) (this : Nat) (w : Window) (e : MouseEvent) (t : Task)
    (ht : b.instances[this]? = some t) :
    scrollingPending (move b this w e) this =
      (scrollCondition w e t.scrolling || t.scrolling) := by
  unfold scrollingPending
  rw [move_instances b this w e t ht, ht]
  simp only [Option.map_some']
  by_cases hc : scrollCondition w e t.scrolling = true
  · simp only [hc, true_and, if_true, Bool.true_or]
    split_ifs <;> rfl
  · have hc2 : scrollCondition w e t.scrolling = false := by simpa using hc
    simp only [hc2, Bool.false_eq_true, false_and, if_false, Bool.false_or]
    split_ifs <;> rfl

/-- At the bottom edge of an unscrolled window `move` calls `Scroll.doScroll`
whatever the latch holds. -/
theorem move_bottom_edge (b : Board) (this : Nat) (w : Window) (e : MouseEvent) (t : Task)
    (ht : b.instances[this]? = some t) (h1 : e.clientY ≥ w.innerHeight)
    (h2 : w.pageYOffset = 0) :
    (move b this w e).doScrollCalls = b.doScrollCalls + 1 ∧
      scrollingPending (move b this w e) this = true := by
  have hc : scrollCondition w e t.scrolling = true := by
    simp [scrollCondition, h1, h2]
  rw [move_doScrollCalls b this w e t ht, move_scrollingPending b this w e t ht, hc]
  simp

/-- At the top edge of a scrolled window `move` calls `Scroll.doScroll` only
when the latch is `null`. -/
theorem move_top_edge_pending (b : Board) (this : Nat) (w : Window) (e : MouseEvent) (t : Task)
    (ht : b.instances[this]? = some t) (h1 : e.clientY < w.innerHeight ∨ w.pageYOffset ≠ 0)
    (hpending : t.scrolling = true) :
    (move b this w e).doScrollCalls = b.doScrollCalls := by
  have hc : scrollCondition w e t.scrolling = false := by
    rcases h1 with h | h
    · simp [scrollCondition, hpending, not_le.2 h]
    · simp [scrollCondition, hpending, h]
  rw [move_doScrollCalls b this w e t ht, hc]
  simp

theorem move_valid (b : Board) (this : Nat) (w : Window) (e : MouseEvent) (t : Task)
    (ht : b.instances[this]? = some t) :
    ∃ t1 : Task, (move b this w e).instances[this]? = some t1 := by
  rw [move_instances b this w e t ht, ht]
  exact ⟨_, rfl⟩

theorem sortedFocused_perm (b : Board) :
    (Menu.sortedFocused b).Perm
      ((getAllFocused b).map (fun task => (task, getPosition b task))) :=
  List.perm_insertionSort _ _

theorem sortedFocused_sorted (b : Board) :
    (Menu.sortedFocused b).Pairwise (fun p q => p.2.top ≤ q.2.top) := by
  have h : (Menu.sortedFocused b).Sorted Menu.tople := List.sorted_insertionSort _ _
  refine List.Pairwise.imp ?_ h
  intro p q hpq
  unfold Menu.tople at hpq
  linarith

theorem mem_sortedFocused (b : Board) (p : Nat × Position) :
    p ∈ Menu.sortedFocused b ↔ p.1 ∈ getAllFocused b ∧ p.2 = getPosition b p.1 := by
  rw [(sortedFocused_perm b).mem_iff, List.mem_map]
  constructor
  · rintro ⟨a, ha, rfl⟩
    exact ⟨ha, rfl⟩
  · rintro ⟨h1, h2⟩
    exact ⟨p.1, h1, by rw [← h2]⟩

theorem sortedFocusedIds_perm (b : Board) :
    (Menu.sortedFocusedIds b).Perm ((getAllFocused b).map (fun task => b.idOf task)) := by
  have h := (sortedFocused_perm b).map (fun t => b.idOf t.1)
  rw [List.map_map] at h
  exact h

theorem mem_getAllFocused_lt (b : Board) (j : Nat) (h : j ∈ getAllFocused b) :
    j < b.instances.length := by
  unfold getAllFocused at h
  exact List.mem_range.1 (List.mem_filter.1 h).1

theorem idOf_eq (b : Board) (j : Nat) (t : Task) (h : b.instances[j]? = some t) :
    b.idOf j = t.id := by
  unfold Board.idOf
  rw [h]

/-- The store after a loop of `Task.toFront` over valid instances. -/
theorem foldl_taskToFront_table (b : Board) :
    ∀ (l : List (Nat × Position)) (b1 : Board),
      (∀ p ∈ l, p.1 < b.instances.length) →
      (∀ j : Nat, (b1.instances[j]?).map (fun t => t.id) =
        (b.instances[j]?).map (fun t => t.id)) →
      (l.foldl (fun b t => Task.toFront b t.1) b1).table =
        (l.map (fun t => b.idOf t.1)).foldl db.toFront b1.table := by
  intro l
  induction l with
  | nil => intro b1 _ _; rfl
  | cons p rest ih =>
    intro b1 hvalid hids
    have hp : p.1 < b.instances.length := hvalid p (List.mem_cons_self _ _)
    have h0 : b.instances[p.1]? = some b.instances[p.1] := List.getElem?_eq_getElem hp
    have h1 := hids p.1
    rw [h0] at h1
    cases hb1 : b1.instances[p.1]? with
    | none => rw [hb1] at h1; simp at h1
    | some t =>
      rw [hb1] at h1
      simp only [Option.map_some', Option.some.injEq] at h1
      have hlt1 : p.1 < b1.instances.length := (List.getElem?_eq_some.1 hb1).1
      rw [List.foldl_cons, List.map_cons, List.foldl_cons,
        ih _ (fun q hq => hvalid q (List.mem_cons_of_mem _ hq))]
      · congr 1
        unfold Task.toFront
        rw [hb1, idOf_eq b p.1 _ h0, ← h1]
      · intro j
        rw [← hids j]
        unfold Task.toFront
        rw [hb1]
        simp only []
        by_cases hj : p.1 = j
        · subst hj
          rw [List.getElem?_set_self hlt1, hb1]
          rfl
        · rw [List.getElem?_set_ne hj]

/-- The store after the bring-to-front command: `db.toFront` on the ids of
the focused tasks, in the order of `sortedFocusedIds`. -/
theorem onToFrontMenuClick_table (b : Board) :
    (Menu.onToFrontMenuClick b).table =
      (Menu.sortedFocusedIds b).foldl db.toFront b.table := by
  unfold Menu.onToFrontMenuClick
  simp only []
  by_cases h1 : (getAllFocused b).length = 1
  · rw [if_pos h1]
    obtain ⟨f, hf⟩ := List.length_eq_one.1 h1
    have hval : f < b.instances.length := mem_getAllFocused_lt b f (by rw [hf]; simp)
    have h0 : b.instances[f]? = some b.instances[f] := List.getElem?_eq_getElem hval
    have hsf : Menu.sortedFocusedIds b = [b.instances[f].id] := by
      unfold Menu.sortedFocusedIds Menu.sortedFocused
      rw [hf]
      simp [List.insertionSort, List.orderedInsert, idOf_eq b f _ h0]
    rw [hsf, hf]
    simp only [List.head?_cons, Option.some_bind, h0, List.foldl_cons, List.foldl_nil]
    cases hg : Task.get b b.instances[f].id with
    | none =>
      exfalso
      unfold Task.get at hg
      rw [List.find?_eq_none] at hg
      have := hg f (List.mem_range.2 hval)
      rw [h0] at this
      simp at this
    | some g =>
      have hp := List.find?_some hg
      cases hgi : b.instances[g]? with
      | none => rw [hgi] at hp; simp at hp
      | some tg =>
        rw [hgi] at hp
        simp only [decide_eq_true_eq] at hp
        simp only [Task.toFront, hgi, hp]
  · rw [if_neg h1]
    rw [foldl_taskToFront_table b _ b ?_ (fun j => rfl)]
    · rfl
    · intro p hp
      exact mem_getAllFocused_lt b p.1 ((mem_sortedFocused b p).1 hp).1

/-- In a list sorted by `val`, with distinct keys, a smaller `val` means an
earlier place of the key. -/
theorem index_lt_of_val_lt {α : Type} (key : α → String) (val : α → ℚ) (l : List α)
    (hs : l.Pairwise (fun a b => val a ≤ val b)) (hnd : (l.map key).Nodup)
    (x y : α) (hx : x ∈ l) (hy : y ∈ l) (hlt : val x < val y) :
    (l.map key).indexOf (key x) < (l.map key).indexOf (key y) := by
  induction l with
  | nil => simp at hx
  | cons a rest ih =>
    rw [List.pairwise_cons] at hs
    rw [List.map_cons, List.nodup_cons] at hnd
    have hne : ∀ r ∈ rest, key a ≠ key r := fun r hr h =>
      hnd.1 (h ▸ List.mem_map_of_mem key hr)
    rcases List.mem_cons.1 hx with hxa | hxr <;> rcases List.mem_cons.1 hy with hya | hyr
    · subst hxa; subst hya; exact absurd hlt (lt_irrefl _)
    · subst hxa
      rw [List.map_cons, List.indexOf_cons_self, List.indexOf_cons_ne _ (hne y hyr)]
      exact Nat.succ_pos _
    · subst hya
      have := hs.1 x hxr
      exact absurd hlt (not_lt.2 this)
    · rw [List.map_cons, List.indexOf_cons_ne _ (hne x hxr), List.indexOf_cons_ne _ (hne y hyr)]
      exact Nat.succ_lt_succ (ih hs.2 hnd.2 hxr hyr)

theorem elmOnmousedown_eq (b : Board) (this : Nat) (w : Window) (e : MouseEvent) (t : Task)
    (ht : b.instances[this]? = some t) (hreg : t.elm.onmousedown = true) :
    elmOnmousedown b this w e = mousedown b this w e := by
  unfold elmOnmousedown
  rw [ht]
  simp [hreg]

theorem elmOnmousedown_unregistered (b : Board) (this : Nat) (w : Window) (e : MouseEvent)
    (t : Task) (ht : b.instances[this]? = some t) (hreg : t.elm.onmousedown = false) :
    elmOnmousedown b this w e = b := by
  unfold elmOnmousedown
  rw [ht]
  simp [hreg]

/-- After `mousedown` the handlers `move` and `drop` of `this` are installed. -/
theorem mousedown_handlers (b : Board) (this : Nat) (w : Window) (e : MouseEvent) :
    (mousedown b this w e).onmousemove = some this ∧
      (mousedown b this w e).onmouseup = some this := by
  unfold mousedown
  simp only []
  exact foldl_preserves
    (fun b f => b.modify f (fun t => { t with origin := { t.origin with pos := getPosition b f } }))
    (fun b => b.onmousemove = some this ∧ b.onmouseup = some this)
    (fun b f hb => hb) _ _ ⟨rfl, rfl⟩

theorem setPosition_handlers (b : Board) (f : Nat) (pos : Position) :
    (setPosition b f pos).onmousemove = b.onmousemove ∧
      (setPosition b f pos).onmouseup = b.onmouseup := by
  unfold setPosition
  split <;> exact ⟨rfl, rfl⟩

/-- The handler `move` leaves `document.onmousemove` and `document.onmouseup`. -/
theorem move_handlers (b : Board) (this : Nat) (w : Window) (e : MouseEvent) :
    (move b this w e).onmousemove = b.onmousemove ∧
      (move b this w e).onmouseup = b.onmouseup := by
  unfold move
  cases ht : b.instances[this]? with
  | none => exact ⟨rfl, rfl⟩
  | some t =>
    simp only []
    refine foldl_preserves _
      (fun b1 => b1.onmousemove = b.onmousemove ∧ b1.onmouseup = b.onmouseup)
      (fun b1 f hb => ?_) _ _ ?_
    · show (setPosition b1 f _).onmousemove = b.onmousemove ∧
        (setPosition b1 f _).onmouseup = b.onmouseup
      rw [(setPosition_handlers b1 f _).1, (setPosition_handlers b1 f _).2]
      exact hb
    · split <;> exact ⟨rfl, rfl⟩

/-- The whole gesture through the event properties is the three handlers of
the pressed instance, when its `mousedown` handler is registered. -/
theorem gesture_dispatch (b : Board) (this : Nat) (t : Task) (wd : Window) (ed : MouseEvent)
    (wm : Window) (em : MouseEvent) (ht : b.instances[this]? = some t)
    (hreg : t.elm.onmousedown = true) :
    documentOnmousemove (elmOnmousedown b this wd ed) wm em =
        move (mousedown b this wd ed) this wm em ∧
    documentOnmouseup (documentOnmousemove (elmOnmousedown b this wd ed) wm em) =
        drop (move (mousedown b this wd ed) this wm em) this ∧
    documentOnmouseup (elmOnmousedown b this wd ed) = drop (mousedown b this wd ed) this := by
  rw [elmOnmousedown_eq b this wd ed t ht hreg]
  have h1 : documentOnmousemove (mousedown b this wd ed) wm em =
      move (mousedown b this wd ed) this wm em := by
    unfold documentOnmousemove
    rw [(mousedown_handlers b this wd ed).1]
  refine ⟨h1, ?_, ?_⟩
  · rw [h1]
    unfold documentOnmouseup
    rw [(move_handlers _ this wm em).2, (mousedown_handlers b this wd ed).2]
  · unfold documentOnmouseup
    rw [(mousedown_handlers b this wd ed).2]

theorem mousedown_registered (b : Board) (this : Nat) (w : Window) (e : MouseEvent) (j : Nat) :
    ((mousedown b this w e).instances[j]?).map (fun t => t.elm.onmousedown) =
      (b.instances[j]?).map (fun t => t.elm.onmousedown) := by
  rw [mousedown_instances, mousedownFocus_instances]
  cases b.instances[j]? with
  | none => simp
  | some t => simp only [Option.map_some']; split_ifs <;> rfl

theorem drop_registered (b : Board) (this : Nat) (j : Nat) :
    ((drop b this).instances[j]?).map (fun t => t.elm.onmousedown) =
      (b.instances[j]?).map (fun t => t.elm.onmousedown) := by
  cases ht : b.instances[this]? with
  | none => unfold drop; rw [ht]
  | some t =>
    rw [drop_instances b this t ht]
    cases b.instances[j]? with
    | none => simp
    | some x => simp only [Option.map_some']; split_ifs <;> rfl

/-- An instance whose `mousedown` handler is registered keeps it through a
press, and through a press and a release. -/
theorem registered_after (b : Board) (this : Nat) (t : Task) (w : Window) (e : MouseEvent)
    (ht : b.instances[this]? = some t) (hreg : t.elm.onmousedown = true) :
    (∃ t1 : Task, (mousedown b this w e).instances[this]? = some t1 ∧
      t1.elm.onmousedown = true) ∧
    (∃ t2 : Task, (drop (mousedown b this w e) this).instances[this]? = some t2 ∧
      t2.elm.onmousedown = true) := by
  have h1 := mousedown_registered b this w e this
  have h2 := drop_registered (mousedown b this w e) this this
  rw [h1] at h2
  rw [ht] at h1 h2
  constructor
  · cases h : (mousedown b this w e).instances[this]? with
    | none => rw [h] at h1; simp at h1
    | some t1 =>
      rw [h] at h1
      simp only [Option.map_some', Option.some.injEq] at h1
      exact ⟨t1, rfl, by rw [h1, hreg]⟩
  · cases h : (drop (mousedown b this w e) this).instances[this]? with
    | none => rw [h] at h2; simp at h2
    | some t2 =>
      rw [h] at h2
      simp only [Option.map_some', Option.some.injEq] at h2
      exact ⟨t2, rfl, by rw [h2, hreg]⟩

end BoardLemmas

/-! ## The claims -/

/-- C1: on a store of N rows with pairwise distinct ids and pairwise distinct
zindex values that contains `id`, `db.toFront(id)` keeps the N ids, leaves the
row `id` with zindex N-1, gives every other row a value in 0..N-2, every value
of 0..N-2 to some other row, keeps the relative order of the other rows (old
zindex(X) < old zindex(Y) iff new zindex(X) < new zindex(Y)), and so puts
`id` strictly above every other row. -/
theorem C1_toFront_contract (table : Table) (id : String)
    (hid : DistinctIds table) (hz : DistinctZ table)
    (hmem : id ∈ table.map (fun r => r.id)) :
    (db.toFront table id).map (fun r => r.id) = table.map (fun r => r.id) ∧
    zindexOf (db.toFront table id) id = some ((table.length : Int) - 1) ∧
    (∀ X ∈ table, X.id ≠ id →
      ∃ zx : Int, zindexOf (db.toFront table id) X.id = some zx ∧
        0 ≤ zx ∧ zx ≤ (table.length : Int) - 2) ∧
    (∀ v : Nat, (v : Int) ≤ (table.length : Int) - 2 →
      ∃ X ∈ table, X.id ≠ id ∧ zindexOf (db.toFront table id) X.id = some (v : Int)) ∧
    (∀ X ∈ table, ∀ Y ∈ table, X.id ≠ id → Y.id ≠ id →
      ∀ zx zy : Int, zindexOf (db.toFront table id) X.id = some zx →
        zindexOf (db.toFront table id) Y.id = some zy →
        (X.zindex < Y.zindex ↔ zx < zy)) ∧
    (∀ X ∈ table, X.id ≠ id →
      ∀ zx zi : Int, zindexOf (db.toFront table id) X.id = some zx →
        zindexOf (db.toFront table id) id = some zi → zx < zi) := by
  have hlen := others_length_sorted table id hid hmem
  have hnd := others_ids_nodup table id hid
  have hnot : id ∉ (db.sortByZindex (table.filter (fun r => r.id ≠ id))).map (fun r => r.id) := by
    rw [mem_others_ids]; exact fun h => h.2 rfl
  have hself : zindexOf (db.toFront table id) id = some ((table.length : Int) - 1) := by
    rw [toFront_eq table id hid, zindexOf_rankBy _ _ _ hmem, frontOrder,
      List.indexOf_append_of_not_mem hnot, List.indexOf_cons_self]
    congr 1
    omega
  have hother : ∀ X ∈ table, X.id ≠ id →
      zindexOf (db.toFront table id) X.id =
        some ((((db.sortByZindex (table.filter (fun r => r.id ≠ id))).map
          (fun r => r.id)).indexOf X.id : Nat) : Int) ∧
      ((db.sortByZindex (table.filter (fun r => r.id ≠ id))).map (fun r => r.id)).indexOf X.id
        + 1 < table.length := by
    intro X hX hXid
    have hin : X.id ∈ (db.sortByZindex (table.filter (fun r => r.id ≠ id))).map
        (fun r => r.id) := by
      rw [mem_others_ids]; exact ⟨List.mem_map_of_mem _ hX, hXid⟩
    refine ⟨?_, ?_⟩
    · rw [toFront_eq table id hid, zindexOf_rankBy _ _ _ (List.mem_map_of_mem _ hX), frontOrder,
        List.indexOf_append_of_mem hin]
    · have := List.indexOf_lt_length.2 hin
      omega
  refine ⟨?_, hself, ?_, ?_, ?_, ?_⟩
  · rw [toFront_eq table id hid, rankBy_ids]
  · intro X hX hXid
    obtain ⟨h1, h2⟩ := hother X hX hXid
    exact ⟨_, h1, by omega, by omega⟩
  · intro v hv
    have hvlt : v < (db.sortByZindex (table.filter (fun r => r.id ≠ id))).length := by
      rw [List.length_map] at hlen; omega
    have hXmem := List.getElem_mem hvlt
    rw [mem_sorted_others] at hXmem
    refine ⟨_, hXmem.1, hXmem.2, ?_⟩
    rw [(hother _ hXmem.1 hXmem.2).1]
    have hv2 : v < ((db.sortByZindex (table.filter (fun r => r.id ≠ id))).map
        (fun r => r.id)).length := by rw [List.length_map]; exact hvlt
    have := List.indexOf_getElem hnd v hv2
    rw [List.getElem_map] at this
    rw [this]
  · intro X hX Y hY hXid hYid zx zy hzx hzy
    rw [(hother X hX hXid).1] at hzx
    rw [(hother Y hY hYid).1] at hzy
    cases hzx
    cases hzy
    have hstrict := strict_sortByZindex (table.filter (fun r => r.id ≠ id))
      (List.Nodup.sublist (List.Sublist.map _ (List.filter_sublist _)) hz)
    rw [zindex_lt_iff_index_lt _ hstrict hnd X Y
      ((mem_sorted_others table id X).2 ⟨hX, hXid⟩) ((mem_sorted_others table id Y).2 ⟨hY, hYid⟩)]
    exact Nat.cast_lt.symm
  · intro X hX hXid zx zi hzx hzi
    rw [(hother X hX hXid).1] at hzx
    rw [hself] at hzi
    cases hzx
    cases hzi
    have := (hother X hX hXid).2
    omega

/-- C1, the two-row scenario: on the store with zindex 3 and 7, bringing the
zindex-3 row to the front gives the old-3 row zindex 1 and the old-7 row
zindex 0. -/
theorem C1_toFront_contract_witness :
    DistinctIds store37 ∧ DistinctZ store37 ∧
    zindexOf store37 "a" = some 3 ∧ zindexOf store37 "b" = some 7 ∧
    zindexOf (db.toFront store37 "a") "a" = some 1 ∧
    zindexOf (db.toFront store37 "a") "b" = some 0 := by
  have h := C1_toFront_contract store37 "a" (by decide) (by decide) (by decide)
  refine ⟨by decide, by decide, by decide, by decide, ?_, ?_⟩
  · exact h.2.1
  · obtain ⟨zx, h1, h2, h3⟩ := h.2.2.1 (mkRecord "b" 7) (by decide) (by decide)
    have h4 : ((store37.length : Int) - 2) = 0 := by decide
    rw [h4] at h3
    have : zx = 0 := le_antisymm h3 h2
    rw [this] at h1
    exact h1

/-- C10, as stated, fails: the focused task `a` is in an edit session, so its
`elm.onmousedown` is `null`; a mousedown on it with Ctrl held runs no handler
and `a` stays in the focus set. -/
theorem C10_counterexample :
    Task.getAllFocused boardEditingA = [0, 1] ∧
    Task.getAllFocused
      (Task.elmOnmousedown boardEditingA 0 window1000 (ctrlMouseAt 100 100)) = [0, 1] ∧
    ¬ (0 ∈ Task.getAllFocused
        (Task.elmOnmousedown boardEditingA 0 window1000 (ctrlMouseAt 100 100)) ↔
      0 ∉ Task.getAllFocused boardEditingA) := by
  decide

/-- C10, amended: for a task `T` whose `mousedown` handler is registered (it
is not in an edit session), a mousedown on `T` with Ctrl held flips the
membership of `T` in the focus set and leaves the membership of every other
task unchanged; two such mousedowns in a row, with or without the mouseup
between them, give the focus set back. On a task whose handler is not
registered the mousedown changes nothing. -/
theorem C10_ctrl_mousedown_toggles (b : Board) (T : Nat) (t : Task) (w : Window)
    (e : MouseEvent) (hT : b.instances[T]? = some t) (hreg : t.elm.onmousedown = true)
    (hctrl : e.ctrlKey = true) :
    (T ∈ Task.getAllFocused (Task.elmOnmousedown b T w e) ↔ T ∉ Task.getAllFocused b) ∧
    (∀ j : Nat, j ≠ T →
      (j ∈ Task.getAllFocused (Task.elmOnmousedown b T w e) ↔ j ∈ Task.getAllFocused b)) ∧
    (∀ (w2 : Window) (e2 : MouseEvent), e2.ctrlKey = true →
      Task.getAllFocused
          (Task.elmOnmousedown (documentOnmouseup (Task.elmOnmousedown b T w e)) T w2 e2) =
        Task.getAllFocused b ∧
      Task.getAllFocused (Task.elmOnmousedown (Task.elmOnmousedown b T w e) T w2 e2) =
        Task.getAllFocused b) ∧
    (∀ (U : Nat) (u : Task), b.instances[U]? = some u → u.elm.onmousedown = false →
      Task.elmOnmousedown b U w e = b) := by
  have hTlt : T < b.instances.length := (List.getElem?_eq_some.1 hT).1
  have hd := elmOnmousedown_eq b T w e t hT hreg
  have hup : documentOnmouseup (Task.elmOnmousedown b T w e) =
      Task.drop (Task.mousedown b T w e) T := (gesture_dispatch b T t w e w e hT hreg).2.2
  obtain ⟨⟨t1, ht1, hreg1⟩, ⟨t2, ht2, hreg2⟩⟩ := registered_after b T t w e hT hreg
  have hmem : ∀ j : Nat, j ∈ Task.getAllFocused (Task.mousedown b T w e) ↔
      ((b.instances[j]?).map (fun t => t.elm.classFocused)).map
        (fun c => if T = j then !c else c) = some true := by
    intro j
    rw [mem_getAllFocused, mousedown_classFocused, mousedownFocus_ctrl_classFocused b T e hctrl]
  rw [hup, hd]
  refine ⟨?_, ?_, ?_, ?_⟩
  · rw [hmem, mem_getAllFocused, List.getElem?_eq_getElem hTlt]
    simp
  · intro j hj
    have hTj : ¬ T = j := fun h => hj h.symm
    rw [hmem, mem_getAllFocused]
    cases b.instances[j]? with
    | none => simp
    | some t => simp [hTj]
  · intro w2 e2 h2
    rw [elmOnmousedown_eq _ T w2 e2 t2 ht2 hreg2, elmOnmousedown_eq _ T w2 e2 t1 ht1 hreg1]
    constructor
    · rw [mousedown_getAllFocused]
      apply getAllFocused_congr
      intro j
      rw [mousedownFocus_ctrl_classFocused _ T e2 h2, drop_classFocused, mousedown_classFocused,
        mousedownFocus_ctrl_classFocused b T e hctrl]
      cases b.instances[j]? with
      | none => simp
      | some t => by_cases hTj : T = j <;> simp [hTj]
    · rw [mousedown_getAllFocused]
      apply getAllFocused_congr
      intro j
      rw [mousedownFocus_ctrl_classFocused _ T e2 h2, mousedown_classFocused,
        mousedownFocus_ctrl_classFocused b T e hctrl]
      cases b.instances[j]? with
      | none => simp
      | some t => by_cases hTj : T = j <;> simp [hTj]
  · intro U u hU hUreg
    exact elmOnmousedown_unregistered b U w e u hU hUreg

/-- C2, as stated, fails: released in flight at left -5, top 200, the task
`a` settles at left 0, top 200. The left coordinate was changed by the
clamping and is 0, and the top coordinate is not below 200. -/
theorem C2_counterexample :
    0 ∈ Task.closureFocused boardInFlight 0 ∧
    Task.getPosition boardInFlight 0 = { left := -5, top := 200 } ∧
    Task.getPosition (Task.drop boardInFlight 0) 0 = { left := 0, top := 200 } ∧
    ¬ ((Task.getPosition (Task.drop boardInFlight 0) 0).top < 200) ∧
    ¬ ((Task.getPosition (Task.drop boardInFlight 0) 0).left ≠
          (Task.getPosition boardInFlight 0).left →
        (Task.getPosition (Task.drop boardInFlight 0) 0).left ≠ 0) := by
  have hin : 0 ∈ Task.closureFocused boardInFlight 0 := by
    unfold boardInFlight
    rw [move_closureFocused, mousedown_closureFocused _ _ _ _ (by decide)]
    decide
  have hflight : Task.getPosition boardInFlight 0 = { left := -5, top := 200 } := by
    unfold boardInFlight
    rw [gesture_position boardAB 0 0 _ _ _ _ (by decide) (by decide)]
    norm_num [Task.getPosition, boardAB, mkBoard, mkTask, Task.getMousePosition, window1000,
      mouseAt]
  have hdrop : Task.getPosition (Task.drop boardInFlight 0) 0 = { left := 0, top := 200 } := by
    rw [drop_position boardInFlight 0 0 hin, hflight]
    norm_num [Task.comeback]
  refine ⟨hin, hflight, hdrop, ?_⟩
  rw [hdrop, hflight]
  norm_num

/-- C2, amended: for every task dragged when the pointer is released, the
settled position is `comeback` of the in-flight position; it satisfies
0 <= left <= 100 and 0 <= top <= 200, a coordinate sits on the upper bound
only if it was in flight exactly there, and a coordinate that the clamping
changed was either negative and is now 0, or above the bound and is now 10
below it. -/
theorem C2_drop_clamps (b : Board) (this f : Nat) (hf : f ∈ Task.closureFocused b this) :
    (Task.getPosition (Task.drop b this) f).left =
        Task.comeback (Task.getPosition b f).left 100 ∧
    (Task.getPosition (Task.drop b this) f).top =
        Task.comeback (Task.getPosition b f).top 200 ∧
    0 ≤ (Task.getPosition (Task.drop b this) f).left ∧
    (Task.getPosition (Task.drop b this) f).left ≤ 100 ∧
    0 ≤ (Task.getPosition (Task.drop b this) f).top ∧
    (Task.getPosition (Task.drop b this) f).top ≤ 200 ∧
    ((Task.getPosition (Task.drop b this) f).left = 100 → (Task.getPosition b f).left = 100) ∧
    ((Task.getPosition (Task.drop b this) f).top = 200 → (Task.getPosition b f).top = 200) ∧
    ((Task.getPosition (Task.drop b this) f).left ≠ (Task.getPosition b f).left →
      ((Task.getPosition b f).left < 0 ∧ (Task.getPosition (Task.drop b this) f).left = 0) ∨
      (100 < (Task.getPosition b f).left ∧
        (Task.getPosition (Task.drop b this) f).left = 90)) ∧
    ((Task.getPosition (Task.drop b this) f).top ≠ (Task.getPosition b f).top →
      ((Task.getPosition b f).top < 0 ∧ (Task.getPosition (Task.drop b this) f).top = 0) ∨
      (200 < (Task.getPosition b f).top ∧
        (Task.getPosition (Task.drop b this) f).top = 190)) := by
  have key : ∀ p m : ℚ, 10 < m →
      (Task.comeback p m = m → p = m) ∧
      (Task.comeback p m ≠ p →
        (p < 0 ∧ Task.comeback p m = 0) ∨ (m < p ∧ Task.comeback p m = m - 10)) := by
    intro p m hm
    unfold Task.comeback
    split_ifs with h1 h2
    · exact ⟨fun h => by linarith, fun _ => Or.inl ⟨h1, rfl⟩⟩
    · exact ⟨fun h => by linarith, fun _ => Or.inr ⟨h2, rfl⟩⟩
    · exact ⟨fun h => h, fun h => absurd rfl h⟩
  rw [drop_position b this f hf]
  have hl := comeback_range (Task.getPosition b f).left 100 (by norm_num)
  have ht := comeback_range (Task.getPosition b f).top 200 (by norm_num)
  have kl := key (Task.getPosition b f).left 100 (by norm_num)
  have kt := key (Task.getPosition b f).top 200 (by norm_num)
  refine ⟨rfl, rfl, hl.1, hl.2, ht.1, ht.2, kl.1, kt.1, ?_, ?_⟩
  · intro h
    rcases kl.2 h with h1 | h1
    · exact Or.inl h1
    · exact Or.inr ⟨h1.1, by rw [h1.2]; norm_num⟩
  · intro h
    rcases kt.2 h with h1 | h1
    · exact Or.inl h1
    · exact Or.inr ⟨h1.1, by rw [h1.2]; norm_num⟩

/-- C2, amended, on the board `boardInFlight`: the dragged task `a`. -/
theorem C2_drop_clamps_witness :
    0 ∈ Task.closureFocused boardInFlight 0 ∧
    0 ≤ (Task.getPosition (Task.drop boardInFlight 0) 0).left ∧
    (Task.getPosition (Task.drop boardInFlight 0) 0).left ≤ 100 ∧
    0 ≤ (Task.getPosition (Task.drop boardInFlight 0) 0).top ∧
    (Task.getPosition (Task.drop boardInFlight 0) 0).top ≤ 200 := by
  have hin : 0 ∈ Task.closureFocused boardInFlight 0 := by
    unfold boardInFlight
    rw [move_closureFocused, mousedown_closureFocused _ _ _ _ (by decide)]
    decide
  have h := C2_drop_clamps boardInFlight 0 0 hin
  exact ⟨hin, h.2.2.1, h.2.2.2.1, h.2.2.2.2.1, h.2.2.2.2.2.1⟩

/-- C3, as stated, fails: `a` (left 5) and `b` (left 50) are focused, `a` is
pressed and dragged 10 percent to the left; `a` is clamped to left 0 and `b`
lands at left 40, so the difference of the lefts goes from -45 to -40. The
board `boardDraggedLeft` is the one the three events lead to. -/
theorem C3_counterexample :
    0 ∈ Task.getAllFocused boardAB ∧ 1 ∈ Task.getAllFocused boardAB ∧
    (Task.getPosition boardAB 0).left - (Task.getPosition boardAB 1).left = -45 ∧
    (Task.getPosition boardDraggedLeft 0).left - (Task.getPosition boardDraggedLeft 1).left
      = -40 ∧
    (Task.getPosition boardDraggedLeft 0).left - (Task.getPosition boardDraggedLeft 1).left ≠
      (Task.getPosition boardAB 0).left - (Task.getPosition boardAB 1).left ∧
    documentOnmouseup
      (documentOnmousemove (Task.elmOnmousedown boardAB 0 window1000 (mouseAt 100 100))
        window1000 (mouseAt 0 100)) = boardDraggedLeft := by
  have hthis : 0 < boardAB.instances.length := by decide
  have hc : Task.closureFocused
      (Task.move (Task.mousedown boardAB 0 window1000 (mouseAt 100 100)) 0 window1000
        (mouseAt 0 100)) 0 = [0, 1] := by
    rw [move_closureFocused, mousedown_closureFocused _ _ _ _ hthis]
    decide
  have hbefore : (Task.getPosition boardAB 0).left - (Task.getPosition boardAB 1).left
      = -45 := by
    norm_num [Task.getPosition, boardAB, mkBoard, mkTask]
  have hafter : (Task.getPosition boardDraggedLeft 0).left -
      (Task.getPosition boardDraggedLeft 1).left = -40 := by
    unfold boardDraggedLeft
    rw [drop_position _ 0 0 (by rw [hc]; decide), drop_position _ 0 1 (by rw [hc]; decide),
      gesture_position boardAB 0 0 _ _ _ _ hthis (by decide),
      gesture_position boardAB 0 1 _ _ _ _ hthis (by decide)]
    norm_num [Task.getPosition, boardAB, mkBoard, mkTask, Task.getMousePosition, window1000,
      mouseAt, Task.comeback]
  refine ⟨by decide, by decide, hbefore, hafter, ?_, ?_⟩
  · rw [hbefore, hafter]
    norm_num
  · exact (gesture_dispatch boardAB 0 (mkTask "a" true 5 10) window1000 (mouseAt 100 100)
      window1000 (mouseAt 0 100) rfl rfl).2.1

/-- C3, amended: a task `this` whose `mousedown` handler is registered is
pressed, and `A` and `B` are focused once that mousedown is handled (any two
focused tasks when a focused task is pressed without Ctrl). After the
mousemove each of `A`, `B` sits at its position before the gesture plus the
pointer delta, so the difference of their positions is what it was. After the
mouseup each sits at `comeback` of its in-flight position, so the difference
is still what it was when no in-flight coordinate of either task is outside
0..100 (left) or 0..200 (top). -/
theorem C3_drag_offset (b : Board) (this A B : Nat) (t : Task) (wd : Window) (ed : MouseEvent)
    (wm : Window) (em : MouseEvent)
    (hthis : b.instances[this]? = some t) (hreg : t.elm.onmousedown = true)
    (hA : A ∈ Task.getAllFocused (Task.elmOnmousedown b this wd ed))
    (hB : B ∈ Task.getAllFocused (Task.elmOnmousedown b this wd ed)) :
    (Task.getPosition (documentOnmousemove (Task.elmOnmousedown b this wd ed) wm em) A =
      { left := (Task.getPosition b A).left + ((Task.getMousePosition wm em).1 - (Task.getMousePosition wd ed).1)
        top := (Task.getPosition b A).top + ((Task.getMousePosition wm em).2 - (Task.getMousePosition wd ed).2) }) ∧
    (Task.getPosition (documentOnmousemove (Task.elmOnmousedown b this wd ed) wm em) B =
      { left := (Task.getPosition b B).left + ((Task.getMousePosition wm em).1 - (Task.getMousePosition wd ed).1)
        top := (Task.getPosition b B).top + ((Task.getMousePosition wm em).2 - (Task.getMousePosition wd ed).2) }) ∧
    ((Task.getPosition (documentOnmousemove (Task.elmOnmousedown b this wd ed) wm em) A).left - (Task.getPosition (documentOnmousemove (Task.elmOnmousedown b this wd ed) wm em) B).left =
        (Task.getPosition b A).left - (Task.getPosition b B).left ∧
      (Task.getPosition (documentOnmousemove (Task.elmOnmousedown b this wd ed) wm em) A).top - (Task.getPosition (documentOnmousemove (Task.elmOnmousedown b this wd ed) wm em) B).top =
        (Task.getPosition b A).top - (Task.getPosition b B).top) ∧
    (Task.getPosition (documentOnmouseup (documentOnmousemove (Task.elmOnmousedown b this wd ed) wm em)) A =
      { left := Task.comeback (Task.getPosition (documentOnmousemove (Task.elmOnmousedown b this wd ed) wm em) A).left 100
        top := Task.comeback (Task.getPosition (documentOnmousemove (Task.elmOnmousedown b this wd ed) wm em) A).top 200 }) ∧
    (Task.getPosition (documentOnmouseup (documentOnmousemove (Task.elmOnmousedown b this wd ed) wm em)) B =
      { left := Task.comeback (Task.getPosition (documentOnmousemove (Task.elmOnmousedown b this wd ed) wm em) B).left 100
        top := Task.comeback (Task.getPosition (documentOnmousemove (Task.elmOnmousedown b this wd ed) wm em) B).top 200 }) ∧
    ((0 ≤ (Task.getPosition (documentOnmousemove (Task.elmOnmousedown b this wd ed) wm em) A).left ∧ (Task.getPosition (documentOnmousemove (Task.elmOnmousedown b this wd ed) wm em) A).left ≤ 100 ∧
      0 ≤ (Task.getPosition (documentOnmousemove (Task.elmOnmousedown b this wd ed) wm em) A).top ∧ (Task.getPosition (documentOnmousemove (Task.elmOnmousedown b this wd ed) wm em) A).top ≤ 200 ∧
      0 ≤ (Task.getPosition (documentOnmousemove (Task.elmOnmousedown b this wd ed) wm em) B).left ∧ (Task.getPosition (documentOnmousemove (Task.elmOnmousedown b this wd ed) wm em) B).left ≤ 100 ∧
      0 ≤ (Task.getPosition (documentOnmousemove (Task.elmOnmousedown b this wd ed) wm em) B).top ∧ (Task.getPosition (documentOnmousemove (Task.elmOnmousedown b this wd ed) wm em) B).top ≤ 200) →
      ((Task.getPosition (documentOnmouseup (documentOnmousemove (Task.elmOnmousedown b this wd ed) wm em)) A).left - (Task.getPosition (documentOnmouseup (documentOnmousemove (Task.elmOnmousedown b this wd ed) wm em)) B).left =
        (Task.getPosition b A).left - (Task.getPosition b B).left ∧
      (Task.getPosition (documentOnmouseup (documentOnmousemove (Task.elmOnmousedown b this wd ed) wm em)) A).top - (Task.getPosition (documentOnmouseup (documentOnmousemove (Task.elmOnmousedown b this wd ed) wm em)) B).top =
        (Task.getPosition b A).top - (Task.getPosition b B).top)) ∧
    (ed.ctrlKey = false → this ∈ Task.getAllFocused b →
      Task.getAllFocused (Task.elmOnmousedown b this wd ed) = Task.getAllFocused b) := by
  have hlt : this < b.instances.length := (List.getElem?_eq_some.1 hthis).1
  have hd := elmOnmousedown_eq b this wd ed t hthis hreg
  obtain ⟨hm, hu, _⟩ := gesture_dispatch b this t wd ed wm em hthis hreg
  rw [hd] at hA hB
  rw [hu, hm, hd]
  have hgA := gesture_position b this A wd ed wm em hlt hA
  have hgB := gesture_position b this B wd ed wm em hlt hB
  have hcl : Task.closureFocused (Task.move (Task.mousedown b this wd ed) this wm em) this =
      Task.getAllFocused (Task.mousedown b this wd ed) := by
    rw [move_closureFocused, mousedown_closureFocused _ _ _ _ hlt]
  have hdA := drop_position _ this A (by rw [hcl]; exact hA)
  have hdB := drop_position _ this B (by rw [hcl]; exact hB)
  have hmid : ((Task.getPosition (Task.move (Task.mousedown b this wd ed) this wm em) A).left -
        (Task.getPosition (Task.move (Task.mousedown b this wd ed) this wm em) B).left =
      (Task.getPosition b A).left - (Task.getPosition b B).left ∧
     (Task.getPosition (Task.move (Task.mousedown b this wd ed) this wm em) A).top -
        (Task.getPosition (Task.move (Task.mousedown b this wd ed) this wm em) B).top =
      (Task.getPosition b A).top - (Task.getPosition b B).top) := by
    rw [hgA, hgB]
    constructor <;> ring
  refine ⟨hgA, hgB, hmid, hdA, hdB, ?_, ?_⟩
  · intro hr
    obtain ⟨a1, a2, a3, a4, b1, b2, b3, b4⟩ := hr
    rw [hdA, hdB]
    simp only [comeback_of_range _ _ a1 a2, comeback_of_range _ _ a3 a4,
      comeback_of_range _ _ b1 b2, comeback_of_range _ _ b3 b4]
    exact hmid
  · intro hctrl hfoc
    rw [mousedown_getAllFocused]
    have hisf : Task.isFocused b this = true := by
      unfold Task.getAllFocused at hfoc
      exact (List.mem_filter.1 hfoc).2
    unfold Task.mousedownFocus
    simp [hctrl, hisf]

/-- C3, amended, on the board `boardAB`: `a` is pressed at (100, 100) and
dragged to (150, 80), which moves it from left 5, top 10 to left 10, top 8;
nothing is clamped and `a` stays 45 percent to the left of `b`. -/
theorem C3_drag_offset_witness :
    boardAB.instances[0]? = some (mkTask "a" true 5 10) ∧
    (mkTask "a" true 5 10).elm.onmousedown = true ∧
    0 ∈ Task.getAllFocused (Task.elmOnmousedown boardAB 0 window1000 (mouseAt 100 100)) ∧
    1 ∈ Task.getAllFocused (Task.elmOnmousedown boardAB 0 window1000 (mouseAt 100 100)) ∧
    Task.getPosition
        (documentOnmousemove (Task.elmOnmousedown boardAB 0 window1000 (mouseAt 100 100))
          window1000 (mouseAt 150 80)) 0 = { left := 10, top := 8 } ∧
    (Task.getPosition
        (documentOnmouseup
          (documentOnmousemove (Task.elmOnmousedown boardAB 0 window1000 (mouseAt 100 100))
            window1000 (mouseAt 150 80))) 0).left -
      (Task.getPosition
        (documentOnmouseup
          (documentOnmousemove (Task.elmOnmousedown boardAB 0 window1000 (mouseAt 100 100))
            window1000 (mouseAt 150 80))) 1).left =
      (Task.getPosition boardAB 0).left - (Task.getPosition boardAB 1).left := by
  have h := C3_drag_offset boardAB 0 0 1 (mkTask "a" true 5 10) window1000 (mouseAt 100 100)
    window1000 (mouseAt 150 80) rfl rfl (by decide) (by decide)
  obtain ⟨hA, hB, _, _, _, hdiff, _⟩ := h
  have hA2 : Task.getPosition
      (documentOnmousemove (Task.elmOnmousedown boardAB 0 window1000 (mouseAt 100 100))
        window1000 (mouseAt 150 80)) 0 = { left := 10, top := 8 } := by
    rw [hA]
    norm_num [Task.getPosition, boardAB, mkBoard, mkTask, Task.getMousePosition, window1000,
      mouseAt]
  have hB2 : Task.getPosition
      (documentOnmousemove (Task.elmOnmousedown boardAB 0 window1000 (mouseAt 100 100))
        window1000 (mouseAt 150 80)) 1 = { left := 55, top := 8 } := by
    rw [hB]
    norm_num [Task.getPosition, boardAB, mkBoard, mkTask, Task.getMousePosition, window1000,
      mouseAt]
  refine ⟨rfl, rfl, by decide, by decide, hA2, (hdiff ?_).1⟩
  rw [hA2, hB2]
  norm_num

/-- C10, amended, on the board `boardAB`: Ctrl-mousedown on the focused task
`a`, whose handler is registered. -/
theorem C10_ctrl_mousedown_toggles_witness :
    boardAB.instances[0]? = some (mkTask "a" true 5 10) ∧
    (mkTask "a" true 5 10).elm.onmousedown = true ∧
    (ctrlMouseAt 100 100).ctrlKey = true ∧
    Task.getAllFocused boardAB = [0, 1] ∧
    (0 ∈ Task.getAllFocused (Task.elmOnmousedown boardAB 0 window1000 (ctrlMouseAt 100 100)) ↔
      0 ∉ Task.getAllFocused boardAB) ∧
    Task.getAllFocused
      (Task.elmOnmousedown
        (documentOnmouseup (Task.elmOnmousedown boardAB 0 window1000 (ctrlMouseAt 100 100))) 0
        window1000 (ctrlMouseAt 100 100)) = Task.getAllFocused boardAB := by
  have h := C10_ctrl_mousedown_toggles boardAB 0 (mkTask "a" true 5 10) window1000
    (ctrlMouseAt 100 100) rfl rfl rfl
  exact ⟨rfl, rfl, rfl, by decide, h.1, (h.2.2.1 window1000 (ctrlMouseAt 100 100) rfl).1⟩

/-- C5: pairwise distinct ids and pairwise distinct zindex values are kept by
every sequence of store operations (`db.add`, `db.toFront`, `db.edit` of
color, text, top, left, `db.deleteTask`), each run to completion, from any
store that has them, the empty store included; the row that `db.add` stores
has the largest existing zindex plus 1, which is 1 on the empty store. -/
theorem C5_distinct_zindex_invariant (ops : List StoreOp) (table : Table)
    (hid : DistinctIds table) (hz : DistinctZ table) :
    (DistinctIds (runOps ops table) ∧ DistinctZ (runOps ops table)) ∧
    (∀ op : StoreOp, DistinctIds (op.run table) ∧ DistinctZ (op.run table)) ∧
    (∀ (newId : String) (option : TaskOption), newId ∉ table.map (fun r => r.id) →
      zindexOf (db.add table newId option).2 newId = some (db.maxZindex table + 1)) ∧
    db.maxZindex [] = 0 ∧
    (∀ r ∈ table, r.zindex ≤ db.maxZindex table) ∧
    (table ≠ [] → ∃ r ∈ table, r.zindex = db.maxZindex table) := by
  refine ⟨runOps_invariant ops table ⟨hid, hz⟩, fun op => run_invariant op table ⟨hid, hz⟩,
    ?_, rfl, le_maxZindex table, ?_⟩
  · intro newId option hnew
    have hfind : ∀ (l : Table) (r : Record), r.id ∉ l.map (fun x => x.id) →
        zindexOf (l ++ [r]) r.id = some r.zindex := by
      intro l r
      induction l with
      | nil => intro _; simp [zindexOf]
      | cons a rest ih =>
        intro h
        rw [List.map_cons, List.mem_cons, not_or] at h
        have hne : ¬ a.id = r.id := fun e => h.1 e.symm
        have := ih h.2
        simp only [zindexOf] at this
        simp only [zindexOf, List.cons_append, List.find?_cons, hne, decide_False]
        exact this
    simp only [db.add, db.tableAdd, db.getAll, if_neg hnew]
    exact hfind table _ hnew
  · intro hne
    have hmax : ∀ (zs : List Int) (z : Int), db.mathMax z zs ∈ z :: zs := by
      intro zs
      induction zs with
      | nil => intro z; simp [db.mathMax]
      | cons a rest ih =>
        intro z
        have h := ih (max z a)
        simp only [db.mathMax, List.foldl_cons] at h ⊢
        rcases List.mem_cons.1 h with h1 | h1
        · rw [h1]
          rcases max_choice z a with h2 | h2
          · rw [h2]; exact List.mem_cons_self _ _
          · rw [h2]; exact List.mem_cons_of_mem _ (List.mem_cons_self _ _)
        · exact List.mem_cons_of_mem _ (List.mem_cons_of_mem _ h1)
    cases table with
    | nil => exact absurd rfl hne
    | cons a rest =>
      have h := hmax (rest.map (fun r => r.zindex)) a.zindex
      have h2 : db.maxZindex (a :: rest) ∈ (a :: rest).map (fun r => r.zindex) := h
      obtain ⟨r, hr, hrz⟩ := List.mem_map.1 h2
      exact ⟨r, hr, hrz⟩

/-- C5 from the empty store: two additions, a bring-to-front, an edit and a
deletion. -/
theorem C5_distinct_zindex_invariant_witness :
    DistinctIds [] ∧ DistinctZ [] ∧
    DistinctZ (runOps
      [.add "t1" {}, .add "t2" {}, .toFront "t1", .edit "t2" { top := some 5 },
       .add "t3" {}, .deleteTask "t1"] []) :=
  ⟨by decide, by decide,
    (C5_distinct_zindex_invariant
      [.add "t1" {}, .add "t2" {}, .toFront "t1", .edit "t2" { top := some 5 },
       .add "t3" {}, .deleteTask "t1"] [] (by decide) (by decide)).1.2⟩

/-- C6: a task in display mode whose field holds `s` enters the edit session
with `Task.edit()`; after any sequence of changes to the edit field (typed
text and key presses other than Tab, among them Ctrl+Enter, Ctrl+Alt+Enter and
Ctrl+Shift+Enter), releasing Escape leaves the task in display mode with the
field value `s`, and the store is what it was before the session. -/
theorem C6_escape_restores (b : Board) (this : Nat) (t : Task) (actions : List EditAction)
    (escape : KeyEvent) (ht : b.instances[this]? = some t)
    (hdisplay : t.elm.classEditing = false)
    (hnotab : ∀ ev : KeyEvent, EditAction.keydown ev ∈ actions → ev.code ≠ "Tab")
    (hesc : escape.code = "Escape") :
    (∃ t1 : Task, (Task.edit b this).instances[this]? = some t1 ∧
      t1.elm.classEditing = true) ∧
    (∃ t2 : Task,
      (Task.onkeyup (runEditActions (Task.edit b this) this actions) this
        escape).instances[this]? = some t2 ∧
      t2.elm.classEditing = false ∧ t2.elm.inputValue = t.elm.inputValue) ∧
    (Task.onkeyup (runEditActions (Task.edit b this) this actions) this escape).table
      = b.table := by
  have hlt : this < b.instances.length := (List.getElem?_eq_some.1 ht).1
  have hedit : (Task.edit b this).instances[this]? =
      some { t with elm := { t.elm with originalValue := some t.elm.inputValue,
                                        onmousedown := false, classEditing := true } } := by
    simp [Task.edit, ht, hdisplay, List.getElem?_set_self hlt]
  have htable : (Task.edit b this).table = b.table := by
    simp [Task.edit, ht, hdisplay]
  obtain ⟨⟨x, hx, hs⟩, htbl⟩ := runEditActions_preserves this t.elm.inputValue b.table actions
    hnotab (Task.edit b this) ⟨⟨_, hedit, rfl⟩, htable⟩
  have hxlt : this < (runEditActions (Task.edit b this) this actions).instances.length :=
    (List.getElem?_eq_some.1 hx).1
  have hfin : (Task.onkeyup (runEditActions (Task.edit b this) this actions) this
      escape).instances[this]? =
      some { x with elm := { x.elm with classEditing := false,
                                        inputValue := (x.elm.originalValue).getD "undefined",
                                        onmousedown := true } } := by
    simp [Task.onkeyup, hesc, hx, List.getElem?_set_self hxlt]
  refine ⟨⟨_, hedit, rfl⟩, ⟨_, hfin, rfl, ?_⟩, ?_⟩
  · simp [hs]
  · simp [Task.onkeyup, hesc, hx, htbl]

/-- C6, the scenario: the field holds "hello", the user types and presses
Ctrl+Enter, Ctrl+Alt+Enter and Ctrl+Shift+Enter, then releases Escape; the
field holds "hello" again. -/
theorem C6_escape_restores_witness :
    boardHello.instances[0]? = some
      { mkTask "h" false 10 20 with
        elm := { (mkTask "h" false 10 20).elm with
          inputValue := "hello", displayText := "hello" } } ∧
    (∃ t2 : Task,
      (Task.onkeyup (runEditActions (Task.edit boardHello 0) 0 someEdits) 0
        (key "Escape" false false false)).instances[0]? = some t2 ∧
      t2.elm.classEditing = false ∧ t2.elm.inputValue = "hello") ∧
    (Task.onkeyup (runEditActions (Task.edit boardHello 0) 0 someEdits) 0
        (key "Escape" false false false)).table = boardHello.table := by
  have h := C6_escape_restores boardHello 0 _ someEdits (key "Escape" false false false)
    (rfl : boardHello.instances[0]? = some _) rfl
    (by
      intro ev hev
      simp [someEdits] at hev
      rcases hev with h | h | h | h <;> rw [h] <;> decide)
    rfl
  exact ⟨rfl, h.2.1, h.2.2⟩

/-- C9 fails on the code: task `a` is dragged, the pointer has reached the
bottom edge of the unscrolled window and the auto-scroll started there is
pending (the latch is not null); the next mousemove at the bottom edge calls
`Scroll.doScroll` again. -/
theorem C9_second_scroll_while_pending :
    Task.scrollingPending boardScrollPending 0 = true ∧
    (Task.move boardScrollPending 0 window1000 (mouseAt 100 1000)).doScrollCalls =
      boardScrollPending.doScrollCalls + 1 := by
  obtain ⟨td, htd, _⟩ := mousedown_this boardAB 0 window1000 (mouseAt 100 100) (by decide)
  have hfirst := move_bottom_edge _ 0 window1000 (mouseAt 100 1000) td htd
    (by norm_num [mouseAt, window1000]) rfl
  obtain ⟨t1, ht1⟩ := move_valid _ 0 window1000 (mouseAt 100 1000) td htd
  have hsecond := move_bottom_edge boardScrollPending 0 window1000 (mouseAt 100 1000) t1 ht1
    (by norm_num [mouseAt, window1000]) rfl
  exact ⟨hfirst.2, hsecond.1⟩

/-- C7 fails on the code: a creation request without id (a double click, or
an imported record) makes `db.add` store a row under the generated id, but the
new element is not given that id and no `Task` instance is built under it:
for the double click `classList.add` throws on the empty color before the
element gets an id; for the imported record the element gets the id '' and
the constructor throws. -/
theorem C7_generated_id_not_used :
    (Task.create boardEmpty "18c2f0a1b3d" optionDoubleClick).1.table.map (fun r => r.id)
      = ["18c2f0a1b3d"] ∧
    (Task.create boardEmpty "18c2f0a1b3d" optionDoubleClick).2.1 = none ∧
    (Task.create boardEmpty "18c2f0a1b3d" optionDoubleClick).2.2 = .error .emptyToken ∧
    (Task.create boardEmpty "18c2f0a1b3d" optionDoubleClick).1.instances = [] ∧
    (Task.create boardEmpty "18c2f0a1b3d" optionImported).1.table.map (fun r => r.id)
      = ["18c2f0a1b3d"] ∧
    (Task.create boardEmpty "18c2f0a1b3d" optionImported).2.1 = some "" ∧
    (Task.create boardEmpty "18c2f0a1b3d" optionImported).2.2 = .error .nullElement ∧
    (Task.create boardEmpty "18c2f0a1b3d" optionImported).1.instances = [] ∧
    Task.get (Task.create boardEmpty "18c2f0a1b3d" optionImported).1 "18c2f0a1b3d" = none :=
  ⟨by decide, by decide, rfl, by decide, by decide, by decide, rfl, by decide, by decide⟩

/-- C8 fails on the code: after `remove()` of the focused task `a` the row of
`a` is gone from the store, but `Task.instances` still holds the instance:
`Task.get` finds it and `Task.getAllFocused` returns it; the same after the
delete command, and a second delete command throws in `removeChild`. -/
theorem C8_removed_task_stays_in_instances :
    Task.getAllFocused boardAB = [0, 1] ∧
    (Task.remove boardAB 0).2 = .ok () ∧
    (Task.remove boardAB 0).1.table.map (fun r => r.id) = ["b"] ∧
    (Task.remove boardAB 0).1.instances.length = 2 ∧
    Task.get (Task.remove boardAB 0).1 "a" = some 0 ∧
    Task.getAllFocused (Task.remove boardAB 0).1 = [0, 1] ∧
    (Menu.onDeleteMenuClick boardAB).1.table = [] ∧
    Task.getAllFocused (Menu.onDeleteMenuClick boardAB).1 = [0, 1] ∧
    (Menu.onDeleteMenuClick (Menu.onDeleteMenuClick boardAB).1).2 = .error .notAChild :=
  ⟨by decide, rfl, by decide, by decide, by decide, by decide, by decide, by decide, rfl⟩

/-- C4: on a board whose store has N rows with pairwise distinct ids and
pairwise distinct zindex values and whose k >= 1 focused tasks have pairwise
distinct ids with rows in the store, the bring-to-front command (each
`db.toFront` run to completion before the next) keeps the ids, gives the
focused tasks, in the order of their sort by ascending `top`, the values
N-k, ..., N-1 (so a focused task with smaller `top` gets the smaller zindex),
gives every other row a value in 0..N-k-1, every value of 0..N-k-1 to some
other row, and keeps the relative order of the other rows. -/
theorem C4_bring_focused_to_front (b : Board)
    (hid : DistinctIds b.table) (hz : DistinctZ b.table)
    (hk : Task.getAllFocused b ≠ [])
    (hnd : ((Task.getAllFocused b).map (fun task => b.idOf task)).Nodup)
    (hsub : ∀ A ∈ Task.getAllFocused b, b.idOf A ∈ b.table.map (fun r => r.id)) :
    (Menu.onToFrontMenuClick b).table.map (fun r => r.id) = b.table.map (fun r => r.id) ∧
    (Menu.sortedFocused b).Pairwise (fun p q => p.2.top ≤ q.2.top) ∧
    (Menu.sortedFocusedIds b).Perm ((Task.getAllFocused b).map (fun task => b.idOf task)) ∧
    (∀ (j : Nat) (hj : j < (Menu.sortedFocusedIds b).length),
      zindexOf (Menu.onToFrontMenuClick b).table (Menu.sortedFocusedIds b)[j] =
        some ((b.table.length : Int) - ((Task.getAllFocused b).length : Int) + (j : Int))) ∧
    (∀ A ∈ Task.getAllFocused b, ∀ B ∈ Task.getAllFocused b,
      (Task.getPosition b A).top < (Task.getPosition b B).top →
      ∀ za zb : Int, zindexOf (Menu.onToFrontMenuClick b).table (b.idOf A) = some za →
        zindexOf (Menu.onToFrontMenuClick b).table (b.idOf B) = some zb → za < zb) ∧
    (∀ A ∈ Task.getAllFocused b,
      ∃ za : Int, zindexOf (Menu.onToFrontMenuClick b).table (b.idOf A) = some za ∧
        (b.table.length : Int) - ((Task.getAllFocused b).length : Int) ≤ za ∧
        za ≤ (b.table.length : Int) - 1) ∧
    (∀ X ∈ b.table, X.id ∉ (Task.getAllFocused b).map (fun task => b.idOf task) →
      ∃ zx : Int, zindexOf (Menu.onToFrontMenuClick b).table X.id = some zx ∧
        0 ≤ zx ∧ zx ≤ (b.table.length : Int) - ((Task.getAllFocused b).length : Int) - 1) ∧
    (∀ v : Nat, (v : Int) ≤ (b.table.length : Int) - ((Task.getAllFocused b).length : Int) - 1 →
      ∃ X ∈ b.table, X.id ∉ (Task.getAllFocused b).map (fun task => b.idOf task) ∧
        zindexOf (Menu.onToFrontMenuClick b).table X.id = some (v : Int)) ∧
    (∀ X ∈ b.table, ∀ Y ∈ b.table,
      X.id ∉ (Task.getAllFocused b).map (fun task => b.idOf task) →
      Y.id ∉ (Task.getAllFocused b).map (fun task => b.idOf task) →
      ∀ zx zy : Int, zindexOf (Menu.onToFrontMenuClick b).table X.id = some zx →
        zindexOf (Menu.onToFrontMenuClick b).table Y.id = some zy →
        (X.zindex < Y.zindex ↔ zx < zy)) := by
  have hperm := sortedFocusedIds_perm b
  have hlenF : (Menu.sortedFocusedIds b).length = (Task.getAllFocused b).length := by
    rw [hperm.length_eq, List.length_map]
  have hndF : (Menu.sortedFocusedIds b).Nodup := hperm.nodup_iff.2 hnd
  have hneF : Menu.sortedFocusedIds b ≠ [] := by
    intro h
    rw [h] at hlenF
    exact hk (List.length_eq_zero.1 hlenF.symm)
  have hsubF : ∀ x ∈ Menu.sortedFocusedIds b, x ∈ b.table.map (fun r => r.id) := by
    intro x hx
    obtain ⟨A, hA, rfl⟩ := List.mem_map.1 (hperm.mem_iff.1 hx)
    exact hsub A hA
  have hmemF : ∀ x : String, x ∈ Menu.sortedFocusedIds b ↔
      x ∈ (Task.getAllFocused b).map (fun task => b.idOf task) := fun x => hperm.mem_iff
  obtain ⟨c1, c2, c3, c4, c5⟩ :=
    foldl_toFront_contract b.table hid hz (Menu.sortedFocusedIds b) hneF hndF hsubF
  rw [← onToFrontMenuClick_table b] at c1 c2 c3 c4 c5
  rw [hlenF] at c3 c4
  have hidx : ∀ A ∈ Task.getAllFocused b,
      zindexOf (Menu.onToFrontMenuClick b).table (b.idOf A) =
        some ((b.table.length : Int) - ((Task.getAllFocused b).length : Int) +
          (((Menu.sortedFocusedIds b).indexOf (b.idOf A) : Nat) : Int)) ∧
      (Menu.sortedFocusedIds b).indexOf (b.idOf A) < (Task.getAllFocused b).length := by
    intro A hA
    have hin : b.idOf A ∈ Menu.sortedFocusedIds b :=
      (hmemF _).2 (List.mem_map_of_mem (fun task => b.idOf task) hA)
    have hlt := List.indexOf_lt_length.2 hin
    have h := c2 _ hlt
    rw [List.getElem_indexOf hlt, hlenF] at h
    exact ⟨h, by rw [← hlenF]; exact hlt⟩
  have hlenN : (Task.getAllFocused b).length ≤ b.table.length := by
    have := outside_length b.table hid (Menu.sortedFocusedIds b) hndF hsubF
    omega
  refine ⟨c1, sortedFocused_sorted b, hperm, fun j hj => by rw [c2 j hj, hlenF],
    ?_, ?_, ?_, ?_, ?_⟩
  · intro A hA B hB hlt za zb hza hzb
    rw [(hidx A hA).1] at hza
    rw [(hidx B hB).1] at hzb
    cases hza
    cases hzb
    have hndS : ((Menu.sortedFocused b).map (fun t => b.idOf t.1)).Nodup := hndF
    have := index_lt_of_val_lt (fun t : Nat × Position => b.idOf t.1) (fun t => t.2.top)
      (Menu.sortedFocused b) (sortedFocused_sorted b) hndS
      (A, Task.getPosition b A) (B, Task.getPosition b B)
      ((mem_sortedFocused b _).2 ⟨hA, rfl⟩) ((mem_sortedFocused b _).2 ⟨hB, rfl⟩) hlt
    have h2 : (Menu.sortedFocusedIds b).indexOf (b.idOf A) <
        (Menu.sortedFocusedIds b).indexOf (b.idOf B) := this
    omega
  · intro A hA
    obtain ⟨h1, h2⟩ := hidx A hA
    exact ⟨_, h1, by omega, by omega⟩
  · intro X hX hXf
    exact c3 X hX (fun h => hXf ((hmemF _).1 h))
  · intro v hv
    obtain ⟨X, hX, hXf, hzv⟩ := c4 v hv
    exact ⟨X, hX, fun h => hXf ((hmemF _).2 h), hzv⟩
  · intro X hX Y hY hXf hYf
    exact c5 X hX Y hY (fun h => hXf ((hmemF _).1 h)) (fun h => hYf ((hmemF _).1 h))

/-- C4 on the board `boardABC`: `a` (top 30) and `c` (top 10) are focused,
the rows hold zindex 1 (`a`), 5 (`b`), 9 (`c`); the command leaves `b` at 0,
`c` at 1 and `a` at 2. -/
theorem C4_bring_focused_to_front_witness :
    DistinctIds boardABC.table ∧ DistinctZ boardABC.table ∧
    Task.getAllFocused boardABC = [0, 2] ∧
    zindexOf (Menu.onToFrontMenuClick boardABC).table "b" = some 0 ∧
    zindexOf (Menu.onToFrontMenuClick boardABC).table "c" = some 1 ∧
    zindexOf (Menu.onToFrontMenuClick boardABC).table "a" = some 2 := by
  have h := C4_bring_focused_to_front boardABC (by decide) (by decide) (by decide)
    (by decide) (by decide)
  obtain ⟨_, _, _, _, hord, hfoc, hout, _, _⟩ := h
  have hlenT : (boardABC.table.length : Int) = 3 := by decide
  have hlenF : ((Task.getAllFocused boardABC).length : Int) = 2 := by decide
  rw [hlenT, hlenF] at hfoc hout
  obtain ⟨za, hza, ha1, ha2⟩ := hfoc 0 (by decide)
  obtain ⟨zc, hzc, hc1, hc2⟩ := hfoc 2 (by decide)
  obtain ⟨zb, hzb, hb1, hb2⟩ := hout (mkRecord "b" 5) (by decide) (by decide)
  have hlt : zc < za := hord 2 (by decide) 0 (by decide)
    (by norm_num [Task.getPosition, boardABC, mkBoard, mkTask]) zc za hzc hza
  have ea : za = 2 := by omega
  have ec : zc = 1 := by omega
  have eb : zb = 0 := by omega
  rw [ea] at hza
  rw [ec] at hzc
  rw [eb] at hzb
  exact ⟨by decide, by decide, by decide, hzb, hzc, hza⟩

end Kanban
